import Mathlib

/-!
Verification of the persona-dialogue core of this repository against its
specification.  The Python sources under `app/` are shallowly embedded:
text is `List Char`, Python dicts of JSON-like values are association
lists preserving insertion order, and each embedded function mirrors the
control flow of the method it is named after.

Embedded modules:
* `app/utils/formatters.py`   (`ResponseFormatter`)
* `app/agents/character_agent.py` (`CharacterAgent.format_response`,
  `CharacterAgent.extract_info_from_response`)
* `app/agents/memory_manager.py`  (`MemoryManager`)
* `app/agents/schema_manager.py`  (`AgentSchemaManager`)
-/

set_option autoImplicit false

/-- Shorthand: a string literal as the `List Char` text representation
used throughout this development. -/
def lc (s : String) : List Char := s.toList

/-- Python's `\s` / `str.strip` whitespace class (ASCII part plus the
Unicode space characters Python's `re` module treats as whitespace). -/
def isPySpace (c : Char) : Bool :=
  c = ' ' || c = '\t' || c = '\n' || c = '\r' || c = '\x0b' || c = '\x0c' ||
  c = '\x1c' || c = '\x1d' || c = '\x1e' || c = '\x1f' ||
  c.toNat = 0x85 || c.toNat = 0xa0 || c.toNat = 0x1680 ||
  (0x2000 ≤ c.toNat && c.toNat ≤ 0x200a) ||
  c.toNat = 0x2028 || c.toNat = 0x2029 || c.toNat = 0x202f ||
  c.toNat = 0x205f || c.toNat = 0x3000

/-- Drop leading whitespace (one side of Python's `str.strip()`). -/
def lstripWs (l : List Char) : List Char := l.dropWhile isPySpace

/-- Python's `str.strip()`: drop whitespace at both ends. -/
def pyStripWs (l : List Char) : List Char :=
  ((l.dropWhile isPySpace).reverse.dropWhile isPySpace).reverse

/-- Python's substring test `needle in hay` for strings. -/
def containsSub (needle hay : List Char) : Bool :=
  hay.tails.any (fun t => needle.isPrefixOf t)

/-- `re.sub(r'\s+', ' ', text)`: collapse every maximal whitespace run to a
single ASCII space.  The flag records whether the previous character was
part of a whitespace run. -/
def collapseAux : Bool → List Char → List Char
  | _, [] => []
  | prevSpace, c :: rest =>
    if isPySpace c then
      if prevSpace then collapseAux true rest
      else ' ' :: collapseAux true rest
    else c :: collapseAux false rest

/-- `re.sub(r'\s+', ' ', text).strip()`, the whitespace normalization both
formatters start with. -/
def collapseWs (l : List Char) : List Char := pyStripWs (collapseAux false l)

/-- Python slice `l[-n:]`: the last `n` elements. -/
def takeLast (n : Nat) (l : List (List Char)) : List (List Char) :=
  l.drop (l.length - n)

namespace ResponseFormatter

/-- A character in the CJK unified-ideograph block, the class
`[一-鿿]` used by `count_chinese_characters`. -/
def isCJK (c : Char) : Bool := 0x4e00 ≤ c.toNat && c.toNat ≤ 0x9fff

/-- `ResponseFormatter.count_chinese_characters`:
`len(re.findall(r'[一-鿿]', text))`. -/
def count_chinese_characters (text : List Char) : Nat :=
  (text.filter isCJK).length

/-- Sentence-final punctuation, the class `[。！？.!?]`. -/
def isSentEnd (c : Char) : Bool :=
  c = '。' || c = '！' || c = '？' || c = '.' || c = '!' || c = '?'

/-- `re.split(r'([。！？.!?])', text)`: alternating list of chunks and
single-delimiter pieces, starting and ending with a (possibly empty)
chunk. -/
def splitSentCap : List Char → List (List Char)
  | [] => [[]]
  | c :: rest =>
    if isSentEnd c then [] :: [c] :: splitSentCap rest
    else
      match splitSentCap rest with
      | [] => [[c]]
      | h :: t => (c :: h) :: t

/-- The loop `for i in range(0, len(sentences), 2): sentence =
sentences[i] + sentences[i+1] ...`: glue each chunk back to its trailing
delimiter. -/
def pairUp : List (List Char) → List (List Char)
  | [] => []
  | [a] => [a]
  | a :: b :: rest => (a ++ b) :: pairUp rest

/-- The greedy accumulation in `truncate_text` (also inlined in
`CharacterAgent.format_response`): keep appending clauses while the
running ideographic count stays within the budget, stop before the clause
that would exceed it. -/
def greedyTake (maxChars : Nat) : List Char → List (List Char) → List Char
  | acc, [] => acc
  | acc, s :: rest =>
    if count_chinese_characters (acc ++ s) > maxChars then acc
    else greedyTake maxChars (acc ++ s) rest

/-- The membership test `'一-鿿' in char` from the hard-cut loop
of `truncate_text`: it asks whether the three-character string
"一-鿿" occurs inside the one-character string `char`. -/
def hardCutTest (c : Char) : Bool :=
  containsSub [Char.ofNat 0x4e00, '-', Char.ofNat 0x9fff] [c]

/-- The hard character-by-character cut of `truncate_text`:
`for char in text: if '一-鿿' in char: char_count += 1;
truncated += char; if char_count >= max_chinese_chars: break`. -/
def hardCutLoop (maxChars : Nat) : Nat → List Char → List Char
  | _, [] => []
  | cnt, c :: rest =>
    let cnt' := if hardCutTest c then cnt + 1 else cnt
    c :: (if cnt' ≥ maxChars then [] else hardCutLoop maxChars cnt' rest)

/-- The punctuation set of `truncated.rstrip('，。！？,.!?')`. -/
def isTrailPunct (c : Char) : Bool :=
  c = '，' || c = '。' || c = '！' || c = '？' || c = ',' || c = '.' || c = '!' || c = '?'

/-- `str.rstrip('，。！？,.!?')`. -/
def rstripPunct (l : List Char) : List Char :=
  (l.reverse.dropWhile isTrailPunct).reverse

/-- `ResponseFormatter.truncate_text`: greedy sentence-boundary
truncation, the 30%-of-budget fallback to the hard cut, and the ellipsis
appended when content was removed. -/
def truncate_text (text : List Char) (max_chinese_chars : Nat) : List Char :=
  let truncated := greedyTake max_chinese_chars [] (pairUp (splitSentCap text))
  -- `count < max_chinese_chars * 0.3` on integers, written rationally.
  let truncated :=
    if count_chinese_characters truncated * 10 < max_chinese_chars * 3 then
      hardCutLoop max_chinese_chars 0 text
    else truncated
  if truncated.length < text.length then rstripPunct truncated ++ lc "..."
  else truncated

end ResponseFormatter


namespace CharacterAgent

/-- `response.split('\n')` (Python `str.split` on a single character):
the chunks between newline characters, empty chunks kept. -/
def splitOnNl : List Char → List (List Char)
  | [] => [[]]
  | c :: rest =>
    if c = '\n' then [] :: splitOnNl rest
    else
      match splitOnNl rest with
      | [] => [[c]]
      | h :: t => (c :: h) :: t

/-- `'\n'.flatten(lines)`. -/
def joinNl : List (List Char) → List Char
  | [] => []
  | [x] => x
  | x :: rest => x ++ '\n' :: joinNl rest

/-- The per-line pass of `CharacterAgent.format_response`: narration lines
(asterisk-delimited) are re-wrapped with stripped content, other non-empty
lines that do not already start with a quote are wrapped in quotes. -/
def lineFmt (line : List Char) : List Char :=
  let line := pyStripWs line
  if line.head? = some '*' && line.getLast? = some '*' then
    '*' :: pyStripWs ((line.drop 1).dropLast) ++ ['*']
  else if line ≠ [] && line.head? ≠ some '"' then
    '"' :: line ++ ['"']
  else line

/-- The truncation branch inlined in `CharacterAgent.format_response`:
greedy sentence-boundary accumulation, with an ellipsis appended when
content was removed. -/
def truncateForResponse (response : List Char) (max_length : Nat) : List Char :=
  let truncated :=
    ResponseFormatter.greedyTake max_length []
      (ResponseFormatter.pairUp (ResponseFormatter.splitSentCap response))
  if truncated.length < response.length then truncated ++ lc "..." else truncated

/-- `CharacterAgent.format_response`: collapse whitespace, truncate when
over the ideographic budget, then apply the per-line narration/dialogue
convention and join the non-empty lines. -/
def format_response (response : List Char) (max_length : Nat) : List Char :=
  let response := collapseWs response
  let chinese_chars := ResponseFormatter.count_chinese_characters response
  let response :=
    if chinese_chars > max_length then truncateForResponse response max_length
    else response
  let lines := splitOnNl response
  let formatted_lines := lines.map lineFmt
  joinNl (formatted_lines.filter (fun l => l ≠ []))

/-- The per-turn signals extracted by `extract_info_from_response`. -/
structure ExtractedInfo where
  topics : List (List Char)
  emotions : List (List Char)
  key_points : List (List Char)
deriving DecidableEq, Repr

/-- The `emotion_keywords` table of `extract_info_from_response`. -/
def emotionKeywords : List (List Char × List (List Char)) :=
  [(lc "愤怒", [lc "愤怒", lc "生气", lc "发怒", lc "怒火", lc "气愤"]),
   (lc "悲伤", [lc "悲伤", lc "难过", lc "伤心", lc "哭泣", lc "悲痛"]),
   (lc "喜悦", [lc "高兴", lc "开心", lc "喜悦", lc "微笑", lc "快乐"]),
   (lc "矛盾", [lc "矛盾", lc "纠结", lc "犹豫", lc "挣扎", lc "困惑"]),
   (lc "恐惧", [lc "害怕", lc "恐惧", lc "惊慌", lc "担心", lc "畏惧"])]

/-- The `topic_keywords` list of `extract_info_from_response`. -/
def topicKeywords : List (List Char) :=
  [lc "剑", lc "战斗", lc "和平", lc "队友", lc "回忆", lc "魔王", lc "王国",
   lc "魔法", lc "使命", lc "复仇", lc "爱情", lc "友谊", lc "牺牲"]

/-- First keyword group of the key-point heuristics (important promise). -/
def promiseKeywords : List (List Char) := [lc "永远", lc "承诺", lc "誓言", lc "约定"]

/-- Second keyword group of the key-point heuristics (secret revealed). -/
def secretKeywords : List (List Char) := [lc "秘密", lc "真相", lc "隐藏", lc "揭露"]

/-- Third keyword group of the key-point heuristics (apology/forgiveness). -/
def apologyKeywords : List (List Char) := [lc "对不起", lc "抱歉", lc "原谅", lc "悔恨"]

/-- `CharacterAgent.extract_info_from_response`: emotion categories are
recorded once if any of their keywords occurs in the response; topics are
recorded if they occur in the response or the user input; the three
key-point groups are each checked against the response only. -/
def extract_info_from_response (response user_input : List Char) : ExtractedInfo :=
  let emotions := emotionKeywords.foldl
    (fun acc p => if p.2.any (fun kw => containsSub kw response) then acc ++ [p.1] else acc) []
  let topics := topicKeywords.foldl
    (fun acc kw => if containsSub kw response || containsSub kw user_input then acc ++ [kw] else acc) []
  let key_points :=
    (if promiseKeywords.any (fun kw => containsSub kw response) then [lc "重要承诺"] else []) ++
    (if secretKeywords.any (fun kw => containsSub kw response) then [lc "秘密揭示"] else []) ++
    (if apologyKeywords.any (fun kw => containsSub kw response) then [lc "道歉或原谅"] else [])
  { topics := topics, emotions := emotions, key_points := key_points }

end CharacterAgent



namespace MemoryManager

open CharacterAgent (ExtractedInfo)

/-- `re.split(r'[。！？.!?]', text)` without a capture group: the chunks
between sentence-final punctuation marks, delimiters dropped. -/
def splitSentPlain : List Char → List (List Char)
  | [] => [[]]
  | c :: rest =>
    if ResponseFormatter.isSentEnd c then [] :: splitSentPlain rest
    else
      match splitSentPlain rest with
      | [] => [[c]]
      | h :: t => (c :: h) :: t

/-- The `strong_emotions` list of `_extract_key_memories`. -/
def strongEmotions : List (List Char) := [lc "愤怒", lc "悲伤", lc "喜悦", lc "恐惧"]

/-- The `important_keywords` list of `_extract_key_memories`. -/
def importantKeywords : List (List Char) :=
  [lc "永远", lc "承诺", lc "誓言", lc "秘密", lc "真相", lc "对不起", lc "谢谢"]

/-- `MemoryManager._extract_key_memories`: one memory for the first strong
emotion, one for the first significant keyword found in either text (the
first long-enough sentence containing it, clipped to 50 characters); at
most two memories, each clipped to 100 characters. -/
def extract_key_memories (user_input agent_response : List Char)
    (extracted_info : ExtractedInfo) : List (List Char) :=
  let emotionMems :=
    match extracted_info.emotions.find? (fun e => decide (e ∈ strongEmotions)) with
    | some e => [lc "对话中表达了强烈的" ++ e ++ lc "情绪"]
    | none => []
  let keywordMems :=
    match importantKeywords.find?
        (fun kw => containsSub kw user_input || containsSub kw agent_response) with
    | none => []
    | some kw =>
      let text := user_input ++ ' ' :: agent_response
      let sentences := splitSentPlain text
      match sentences.find?
          (fun s => containsSub kw s && decide ((pyStripWs s).length > 5)) with
      | some s => [lc "提到：" ++ (pyStripWs s).take 50 ++ lc "..."]
      | none => []
  let memories := emotionMems ++ keywordMems
  (memories.take 2).map (fun m => m.take 100)

/-- The `user_traits` JSON map of an `AgentState`; only these four keys are
ever written by the manager, and a missing key (or a `None`/empty dict,
which `traits or {}` treats alike) is an absent `Option`. -/
structure UserTraits where
  interaction_count : Option Int
  last_interaction : Option (List Char)
  interests : Option (List (List Char))
  personality_traits : Option (List (List Char))
deriving DecidableEq, Repr

/-- The mutable per-(user, agent) state row (`app.models.AgentState`)
as far as `MemoryManager` reads and writes it. -/
structure AgentState where
  current_stage : List Char
  key_memories : List (List Char)
  user_traits : UserTraits
  conversation_topics : List (List Char)
  last_interaction_at : List Char
  updated_at : List Char
deriving DecidableEq, Repr

/-- The `emotion_to_trait` table of `_update_user_traits`. -/
def emotionToTrait (e : List Char) : Option (List Char) :=
  if e = lc "愤怒" then some (lc "直接")
  else if e = lc "悲伤" then some (lc "感性")
  else if e = lc "喜悦" then some (lc "乐观")
  else if e = lc "矛盾" then some (lc "谨慎")
  else none

/-- Append each new element not already present (`if x not in xs: xs.append(x)`). -/
def appendNew (xs : List (List Char)) (news : List (List Char)) : List (List Char) :=
  news.foldl (fun acc t => if t ∈ acc then acc else acc ++ [t]) xs

/-- `MemoryManager._update_user_traits`: initialize and increment the
interaction counter, stamp the last interaction, and add topics/emotion
traits with set semantics. -/
def update_user_traits (traits : UserTraits) (extracted_info : ExtractedInfo)
    (nowIso : List Char) : UserTraits :=
  let cnt := traits.interaction_count.getD 0 + 1
  let interests := appendNew (traits.interests.getD []) extracted_info.topics
  let ptraits := extracted_info.emotions.foldl
    (fun acc e =>
      match emotionToTrait e with
      | some tr => if tr ∈ acc then acc else acc ++ [tr]
      | none => acc)
    (traits.personality_traits.getD [])
  { interaction_count := some cnt
    last_interaction := some nowIso
    interests := some interests
    personality_traits := some ptraits }

/-- `MemoryManager._update_conversation_topics`: union in the new topics,
then keep only the most recent 10. -/
def update_conversation_topics (topics : List (List Char))
    (extracted_info : ExtractedInfo) : List (List Char) :=
  let topics := appendNew topics extracted_info.topics
  if topics.length > 10 then takeLast 10 topics else topics

/-- `MemoryManager._update_relationship_stage` as the pure function of the
authoritative persisted message count and the stored key-memory count:
fixed thresholds, then the memory-based promotion from 友好期 to 亲密期. -/
def update_relationship_stage_name (interaction_count : Nat)
    (key_memories_count : Nat) : List Char :=
  let new_stage :=
    if interaction_count < 5 then lc "陌生期"
    else if interaction_count < 15 then lc "熟悉期"
    else if interaction_count < 30 then lc "友好期"
    else lc "亲密期"
  if key_memories_count > 8 ∧ new_stage = lc "友好期" then lc "亲密期" else new_stage

/-- `MemoryManager.update_agent_state` (one `advance` step).  The
authoritative message count for stage recomputation is a collaborator
query, passed in as `dbMessageCount`; `nowIso` stands for
`datetime.utcnow()`. -/
def update_agent_state (st : AgentState) (user_input agent_response : List Char)
    (extracted_info : ExtractedInfo) (nowIso : List Char)
    (dbMessageCount : Nat) : AgentState :=
  let new_memories := extract_key_memories user_input agent_response extracted_info
  let key_memories :=
    if new_memories ≠ [] then
      let current_memories := st.key_memories ++ new_memories
      if current_memories.length > 15 then takeLast 15 current_memories
      else current_memories
    else st.key_memories
  let user_traits := update_user_traits st.user_traits extracted_info nowIso
  let conversation_topics := update_conversation_topics st.conversation_topics extracted_info
  let current_stage := update_relationship_stage_name dbMessageCount key_memories.length
  { current_stage := current_stage
    key_memories := key_memories
    user_traits := user_traits
    conversation_topics := conversation_topics
    last_interaction_at := nowIso
    updated_at := nowIso }

/-- The inputs of one `advance` step, including the collaborator-supplied
authoritative message count. -/
structure Step where
  user_input : List Char
  agent_response : List Char
  extracted_info : ExtractedInfo
  nowIso : List Char
  dbMessageCount : Nat

/-- One `advance` step from a state. -/
def stepState (st : AgentState) (s : Step) : AgentState :=
  update_agent_state st s.user_input s.agent_response s.extracted_info s.nowIso s.dbMessageCount

/-- The post-states of a sequence of `advance` steps. -/
def runStates (st : AgentState) : List Step → List AgentState
  | [] => []
  | s :: rest =>
    let st1 := stepState st s
    st1 :: runStates st1 rest

/-- The linear order 陌生期 < 熟悉期 < 友好期 < 亲密期 as a rank. -/
def stageRank (stage : List Char) : Nat :=
  if stage = lc "熟悉期" then 1
  else if stage = lc "友好期" then 2
  else if stage = lc "亲密期" then 3
  else 0

end MemoryManager


namespace AgentSchemaManager

/-- JSON-like Python values as handled by `AgentSchemaManager`.  `pyobj`
stands for any other Python object: `json.dumps` raises on it, and `str`
renders it as the carried text. -/
inductive JVal where
  | str (s : List Char)
  | num (n : Int)
  | bool (b : Bool)
  | null
  | arr (xs : List JVal)
  | obj (fields : List (List Char × JVal))
  | pyobj (stringified : List Char)

instance : Inhabited JVal := ⟨JVal.null⟩

/-- A Python dict of JSON-like values: an association list in insertion
order (Python dicts preserve it and have no duplicate keys). -/
abbrev PDict := List (List Char × JVal)

/-- The keys of a dict, in order. -/
def pkeys (d : PDict) : List (List Char) := d.map (fun e => e.1)

/-- Python dict assignment `d[k] = v`: overwrite in place if the key
exists, otherwise append. -/
def dictSet (d : PDict) (k : List Char) (v : JVal) : PDict :=
  match d with
  | [] => [(k, v)]
  | (k', v') :: rest => if k' = k then (k, v) :: rest else (k', v') :: dictSet rest k v

mutual

/-- `json.dumps` succeeds exactly on values free of non-serializable
Python objects. -/
def serializableVal : JVal → Bool
  | .str _ => true
  | .num _ => true
  | .bool _ => true
  | .null => true
  | .arr xs => serializableList xs
  | .obj es => serializableEntries es
  | .pyobj _ => false

/-- Serializability of the elements of a JSON array. -/
def serializableList : List JVal → Bool
  | [] => true
  | v :: vs => serializableVal v && serializableList vs

/-- Serializability of the values of a JSON object. -/
def serializableEntries : List (List Char × JVal) → Bool
  | [] => true
  | (_, v) :: es => serializableVal v && serializableEntries es

end

/-- Decimal digits of a natural number (fuel-indexed helper). -/
def natDigitsAux : Nat → Nat → List Char
  | 0, _ => []
  | fuel + 1, n =>
    if n < 10 then [Nat.digitChar n]
    else natDigitsAux fuel (n / 10) ++ [Nat.digitChar (n % 10)]

/-- Decimal rendering of a natural number. -/
def natDigits (n : Nat) : List Char := natDigitsAux (n + 1) n

/-- Decimal rendering of an integer (Python `str(int)` / JSON number). -/
def intDigits (n : Int) : List Char :=
  if n < 0 then '-' :: natDigits n.natAbs else natDigits n.toNat

/-- JSON string escaping as done by `json.dumps(..., ensure_ascii=False)`. -/
def jsonEscapeChar (c : Char) : List Char :=
  if c = '"' then ['\\', '"']
  else if c = '\\' then ['\\', '\\']
  else if c = '\n' then ['\\', 'n']
  else if c = '\t' then ['\\', 't']
  else if c = '\r' then ['\\', 'r']
  else if c = '\x08' then ['\\', 'b']
  else if c = '\x0c' then ['\\', 'f']
  else if c.toNat < 0x20 then
    ['\\', 'u', '0', '0', Nat.digitChar (c.toNat / 16), Nat.digitChar (c.toNat % 16)]
  else [c]

/-- A JSON string literal with quotes and escapes. -/
def jsonQuote (s : List Char) : List Char :=
  '"' :: (s.flatMap jsonEscapeChar) ++ ['"']

/-- Join text pieces with a separator. -/
def joinSep (sep : List Char) : List (List Char) → List Char
  | [] => []
  | [x] => x
  | x :: rest => x ++ sep ++ joinSep sep rest

mutual

/-- `json.dumps(v, ensure_ascii=False)` with the default separators
`(', ', ': ')`, on serializable values. -/
def dumpsVal : JVal → List Char
  | .str s => jsonQuote s
  | .num n => intDigits n
  | .bool b => if b then lc "true" else lc "false"
  | .null => lc "null"
  | .arr xs => '[' :: joinSep (lc ", ") (dumpsList xs) ++ [']']
  | .obj es => '\x7b' :: joinSep (lc ", ") (dumpsEntries es) ++ ['\x7d']
  | .pyobj _ => []

/-- Renderings of the elements of a JSON array. -/
def dumpsList : List JVal → List (List Char)
  | [] => []
  | v :: vs => dumpsVal v :: dumpsList vs

/-- Renderings of the members of a JSON object. -/
def dumpsEntries : List (List Char × JVal) → List (List Char)
  | [] => []
  | (k, v) :: es => (jsonQuote k ++ lc ": " ++ dumpsVal v) :: dumpsEntries es

end

/-- Python `str.lower()` restricted to ASCII letters (the detection
keywords and the serialized profiles exercised here contain no other
cased characters). -/
def toLowerAscii (l : List Char) : List Char :=
  l.map (fun c => if 'A' ≤ c && c ≤ 'Z' then Char.ofNat (c.toNat + 32) else c)

mutual

/-- Python `str(value)` of a parsed JSON value (`repr` for the elements
of containers). -/
def pyStr : JVal → List Char
  | .str s => s
  | .num n => intDigits n
  | .bool b => if b then lc "True" else lc "False"
  | .null => lc "None"
  | .arr xs => '[' :: joinSep (lc ", ") (pyReprList xs) ++ [']']
  | .obj es => '\x7b' :: joinSep (lc ", ") (pyReprEntries es) ++ ['\x7d']
  | .pyobj s => s

/-- Python `repr` of a parsed JSON value. -/
def pyRepr : JVal → List Char
  | .str s => Char.ofNat 39 :: s ++ [Char.ofNat 39]
  | .num n => intDigits n
  | .bool b => if b then lc "True" else lc "False"
  | .null => lc "None"
  | .arr xs => '[' :: joinSep (lc ", ") (pyReprList xs) ++ [']']
  | .obj es => '\x7b' :: joinSep (lc ", ") (pyReprEntries es) ++ ['\x7d']
  | .pyobj s => s

/-- `repr` of the elements of a list. -/
def pyReprList : List JVal → List (List Char)
  | [] => []
  | v :: vs => pyRepr v :: pyReprList vs

/-- `repr` of the members of a dict. -/
def pyReprEntries : List (List Char × JVal) → List (List Char)
  | [] => []
  | (k, v) :: es => (Char.ofNat 39 :: k ++ [Char.ofNat 39] ++ lc ": " ++ pyRepr v) :: pyReprEntries es

end

end AgentSchemaManager


namespace AgentSchemaManager

/-- The schema registry keys of `AgentSchemaManager`. -/
inductive SchemaType where
  | dflt
  | fantasy
  | sci_fi
  | modern
  | historical
deriving DecidableEq, Repr

/-- The registry key / `schema_type` metadata value of each variant. -/
def typeName : SchemaType → List Char
  | .dflt => lc "default"
  | .fantasy => lc "fantasy"
  | .sci_fi => lc "sci_fi"
  | .modern => lc "modern"
  | .historical => lc "historical"

/-- `fantasy_keywords` of `_detect_agent_type`. -/
def fantasyKeywords : List (List Char) :=
  [lc "魔法", lc "剑", lc "骑士", lc "精灵", lc "龙", lc "魔王", lc "勇者"]

/-- `scifi_keywords` of `_detect_agent_type`. -/
def scifiKeywords : List (List Char) :=
  [lc "科技", lc "太空", lc "机器人", lc "AI", lc "未来", lc "飞船", lc "星际"]

/-- `modern_keywords` of `_detect_agent_type`. -/
def modernKeywords : List (List Char) :=
  [lc "现代", lc "都市", lc "学校", lc "职场", lc "日常"]

/-- `historical_keywords` of `_detect_agent_type`. -/
def historicalKeywords : List (List Char) :=
  [lc "历史", lc "古代", lc "王朝", lc "皇帝", lc "将军"]

/-- `AgentSchemaManager._detect_agent_type`: serialize the profile, lower
it, and scan the four keyword sets in fixed priority order. -/
def detect_agent_type (profile : PDict) : SchemaType :=
  let content_str := toLowerAscii (dumpsVal (JVal.obj profile))
  if fantasyKeywords.any (fun kw => containsSub kw content_str) then .fantasy
  else if scifiKeywords.any (fun kw => containsSub kw content_str) then .sci_fi
  else if modernKeywords.any (fun kw => containsSub kw content_str) then .modern
  else if historicalKeywords.any (fun kw => containsSub kw content_str) then .historical
  else .dflt

/-- The `field_mapping` alias table of `_normalize_field_names`. -/
def field_mapping : List (List Char × List Char) :=
  [(lc "姓名", lc "name"), (lc "名字", lc "name"), (lc "角色名", lc "name"),
   (lc "性格", lc "personality"), (lc "个性", lc "personality"),
   (lc "性别", lc "gender"), (lc "sex", lc "gender"),
   (lc "年龄", lc "age"), (lc "年紀", lc "age"),
   (lc "种族", lc "race"), (lc "物种", lc "race"),
   (lc "外貌", lc "appearance"), (lc "长相", lc "appearance"), (lc "外表", lc "appearance"),
   (lc "服装", lc "clothing"), (lc "衣着", lc "clothing"), (lc "打扮", lc "clothing"),
   (lc "特质", lc "traits"), (lc "特点", lc "traits"),
   (lc "技能", lc "skills"), (lc "能力", lc "skills"),
   (lc "武器", lc "weapon"), (lc "装备", lc "weapon"),
   (lc "队友", lc "teammates"), (lc "同伴", lc "teammates"), (lc "伙伴", lc "teammates"),
   (lc "目标", lc "goals"), (lc "目的", lc "goals"),
   (lc "怪癖", lc "quirks"), (lc "习惯", lc "quirks"),
   (lc "背景", lc "backstory"), (lc "故事", lc "backstory"), (lc "经历", lc "backstory"),
   (lc "personality_traits", lc "traits"),
   (lc "abilities", lc "skills"),
   (lc "companions", lc "teammates"),
   (lc "history", lc "backstory"),
   (lc "apparel", lc "clothing"),
   (lc "looks", lc "appearance")]

/-- The canonical key an input key is mapped to (unmapped keys pass
through unchanged). -/
def aliasTarget (k : List Char) : List Char :=
  match field_mapping.lookup k with
  | some v => v
  | none => k

/-- `AgentSchemaManager._normalize_field_names`: rebuild the dict in
iteration order, writing each value under the mapped (or original) key. -/
def normalize_field_names (profile : PDict) : PDict :=
  profile.foldl (fun acc e => dictSet acc (aliasTarget e.1) e.2) []

/-- The shapes of the pydantic fields of the character schemas.  This
models pydantic-v1 validation on JSON-like values: `req…` fields are
required (`None` rejected), `opt…` fields treat absence and `None` as
`None`, fields with a list/dict default factory replace absence by the
empty container, and string fields coerce numbers and booleans the way
pydantic's `str` validator does. -/
inductive FieldKind where
  | reqName
  | reqStr
  | genderK
  | optStr
  | listStrDefault
  | optListStr
  | optDict
  | optListDict
  | dictDefault
deriving DecidableEq, Repr

/-- pydantic's `str` coercion: strings, numbers and booleans. -/
def coerceStr : JVal → Option (List Char)
  | .str s => some s
  | .num n => some (intDigits n)
  | .bool b => some (if b then lc "True" else lc "False")
  | _ => none

/-- The values of the `CharacterGender` enum. -/
def genderValues : List (List Char) := [lc "男性", lc "女性", lc "其他", lc "未知"]

/-- Whether a value is JSON `null` (Python `None`). -/
def isNull : JVal → Bool
  | .null => true
  | _ => false

/-- Whether a value is a JSON object. -/
def isObj : JVal → Bool
  | .obj _ => true
  | _ => false

/-- Validation of one field.  `ok none` is a `None` field value, dropped
later by `dict(exclude_none=True)`. -/
def validateField (kind : FieldKind) (v : Option JVal) : Except Unit (Option JVal) :=
  match kind, v with
  | .reqName, none => .error ()
  | .reqName, some w =>
    match coerceStr w with
    | some s => if pyStripWs s = [] then .error () else .ok (some (JVal.str (pyStripWs s)))
    | none => .error ()
  | .reqStr, none => .error ()
  | .reqStr, some w =>
    match coerceStr w with
    | some s => .ok (some (JVal.str s))
    | none => .error ()
  | .genderK, none => .ok (some (JVal.str (lc "未知")))
  | .genderK, some .null => .ok none
  | .genderK, some (.str s) =>
    if s ∈ genderValues then .ok (some (JVal.str s)) else .error ()
  | .genderK, some _ => .error ()
  | .optStr, none => .ok none
  | .optStr, some .null => .ok none
  | .optStr, some w =>
    match coerceStr w with
    | some s => .ok (some (JVal.str s))
    | none => .error ()
  | .listStrDefault, none => .ok (some (JVal.arr []))
  | .listStrDefault, some (.arr xs) =>
    match xs.mapM coerceStr with
    | some ss => .ok (some (JVal.arr (ss.map JVal.str)))
    | none => .error ()
  | .listStrDefault, some _ => .error ()
  | .optListStr, none => .ok (some (JVal.arr []))
  | .optListStr, some .null => .ok none
  | .optListStr, some (.arr xs) =>
    match xs.mapM coerceStr with
    | some ss => .ok (some (JVal.arr (ss.map JVal.str)))
    | none => .error ()
  | .optListStr, some _ => .error ()
  | .optDict, none => .ok none
  | .optDict, some .null => .ok none
  | .optDict, some (.obj es) => .ok (some (JVal.obj es))
  | .optDict, some _ => .error ()
  | .optListDict, none => .ok none
  | .optListDict, some .null => .ok none
  | .optListDict, some (.arr xs) =>
    if xs.all isObj then .ok (some (JVal.arr xs)) else .error ()
  | .optListDict, some _ => .error ()
  | .dictDefault, none => .ok (some (JVal.obj []))
  | .dictDefault, some (.obj es) => .ok (some (JVal.obj es))
  | .dictDefault, some _ => .error ()

/-- The base fields shared by `CharacterSchema`/`AdvancedCharacterSchema`,
in declaration order. -/
def baseFields : List (List Char × FieldKind) :=
  [(lc "name", .reqName), (lc "personality", .reqStr), (lc "gender", .genderK),
   (lc "age", .optStr), (lc "race", .optStr), (lc "appearance", .optStr),
   (lc "clothing", .optStr), (lc "traits", .listStrDefault), (lc "skills", .listStrDefault),
   (lc "weapon", .optDict), (lc "teammates", .optListDict), (lc "goals", .optStr),
   (lc "quirks", .optListStr), (lc "backstory", .optStr), (lc "custom_fields", .dictDefault)]

/-- The extra fields each schema variant declares. -/
def variantFields : SchemaType → List (List Char × FieldKind)
  | .dflt => []
  | .fantasy =>
    [(lc "magic_system", .optStr), (lc "kingdom", .optStr),
     (lc "title", .optStr), (lc "alignment", .optStr)]
  | .sci_fi =>
    [(lc "tech_level", .optStr), (lc "organization", .optStr),
     (lc "cybernetics", .optListStr), (lc "spaceship", .optDict)]
  | .modern =>
    [(lc "occupation", .optStr), (lc "education", .optStr),
     (lc "family", .optListStr), (lc "hobbies", .optListStr)]
  | .historical =>
    [(lc "era", .optStr), (lc "dynasty", .optStr),
     (lc "social_class", .optStr), (lc "historical_facts", .optListStr)]

/-- All declared fields of a schema variant. -/
def declaredFor (t : SchemaType) : List (List Char × FieldKind) :=
  baseFields ++ variantFields t

/-- The declared fields that fail validation. -/
def fieldErrors (t : SchemaType) (d : PDict) : List (List Char) :=
  (declaredFor t).filterMap (fun e =>
    match validateField e.2 (d.lookup e.1) with
    | .error _ => some e.1
    | .ok _ => none)

/-- A human-readable rendering of the failing fields, modelling
`str(validation_error)`. -/
def renderErrors (errs : List (List Char)) : List Char :=
  joinSep (lc "; ") (errs.map (fun k => k ++ lc ": invalid"))

/-- The serialized entry a declared field contributes to
`validated.dict(exclude_none=True)`: its validated value keyed by the
field name, or nothing when the field is `None`. -/
def declaredOut (d : PDict) (e : List Char × FieldKind) : Option (List Char × JVal) :=
  match validateField e.2 (d.lookup e.1) with
  | .ok (some v) => some (e.1, v)
  | _ => none

/-- `validated.dict(exclude_none=True)`: the declared fields that are not
`None`, in declaration order, followed (for the variant subclasses, whose
`Config` sets `extra = "allow"`; the default `AdvancedCharacterSchema`
ignores extra input) by the unknown input keys, `None`-valued ones
dropped as well. -/
def modelDict (t : SchemaType) (d : PDict) : PDict :=
  ((declaredFor t).filterMap (declaredOut d)) ++
    (if t = SchemaType.dflt then []
     else (d.filter (fun e =>
         !(((declaredFor t).map (fun e => e.1)).contains e.1))).filter
       (fun e => !(isNull e.2)))

/-- The contents of the validated `custom_fields` attribute. -/
def customEntries (d : PDict) : PDict :=
  match validateField .dictDefault (d.lookup (lc "custom_fields")) with
  | .ok (some (JVal.obj es)) => es
  | _ => []

/-- Schema validation: the validated-and-serialized model dict plus the
`custom_fields` contents on success, the error text on failure. -/
def validateSchema (t : SchemaType) (d : PDict) :
    Except (List Char) (PDict × PDict) :=
  if fieldErrors t d = [] then .ok (modelDict t d, customEntries d)
  else .error (renderErrors (fieldErrors t d))

end AgentSchemaManager


namespace AgentSchemaManager

/-- JSON whitespace accepted between tokens by `json.loads`. -/
def jsonWsChar (c : Char) : Bool :=
  c = ' ' || c = '\t' || c = '\n' || c = '\r'

/-- Skip JSON whitespace. -/
def skipJsonWs (l : List Char) : List Char := l.dropWhile jsonWsChar

/-- Parse the remainder of a JSON string literal (after the opening
quote).  `\uXXXX` escapes are not modelled. -/
def parseJStrAux : List Char → Option (List Char × List Char)
  | [] => none
  | c :: rest =>
    if c = '"' then some ([], rest)
    else if c = '\\' then
      match rest with
      | [] => none
      | e :: rest2 =>
        let dec : Option Char :=
          if e = '"' then some '"'
          else if e = '\\' then some '\\'
          else if e = '/' then some '/'
          else if e = 'n' then some '\n'
          else if e = 't' then some '\t'
          else if e = 'r' then some '\r'
          else if e = 'b' then some '\x08'
          else if e = 'f' then some '\x0c'
          else none
        match dec with
        | some ch => (parseJStrAux rest2).map (fun p => (ch :: p.1, p.2))
        | none => none
    else (parseJStrAux rest).map (fun p => (c :: p.1, p.2))

/-- Value of a list of decimal digit characters. -/
def natFromDigits (ds : List Char) : Nat :=
  ds.foldl (fun n c => n * 10 + (c.toNat - 48)) 0

/-- Parse a JSON integer (floats are not modelled; a fractional or
exponent tail is left unconsumed, which makes the whole parse fail). -/
def parseJNum (l : List Char) : Option (Int × List Char) :=
  match l with
  | '-' :: rest =>
    let ds := rest.takeWhile Char.isDigit
    if ds = [] then none
    else some (-(Int.ofNat (natFromDigits ds)), rest.dropWhile Char.isDigit)
  | _ =>
    let ds := l.takeWhile Char.isDigit
    if ds = [] then none
    else some (Int.ofNat (natFromDigits ds), l.dropWhile Char.isDigit)

mutual

/-- Recursive-descent JSON value parser (fuel-indexed; the fuel bounds
nesting depth). -/
def parseJVal : Nat → List Char → Option (JVal × List Char)
  | 0, _ => none
  | fuel + 1, l =>
    let l := skipJsonWs l
    match l with
    | [] => none
    | c :: rest =>
      if c = '"' then (parseJStrAux rest).map (fun p => (JVal.str p.1, p.2))
      else if c = '\x7b' then
        match skipJsonWs rest with
        | '\x7d' :: rest2 => some (JVal.obj [], rest2)
        | rest2 => (parseJObjRest fuel rest2).map (fun p => (JVal.obj p.1, p.2))
      else if c = '[' then
        match skipJsonWs rest with
        | ']' :: rest2 => some (JVal.arr [], rest2)
        | rest2 => (parseJArrRest fuel rest2).map (fun p => (JVal.arr p.1, p.2))
      else if (lc "true").isPrefixOf l then some (JVal.bool true, l.drop 4)
      else if (lc "false").isPrefixOf l then some (JVal.bool false, l.drop 5)
      else if (lc "null").isPrefixOf l then some (JVal.null, l.drop 4)
      else (parseJNum l).map (fun p => (JVal.num p.1, p.2))

/-- Parse the members of a JSON object (at least one expected). -/
def parseJObjRest : Nat → List Char → Option (List (List Char × JVal) × List Char)
  | 0, _ => none
  | fuel + 1, l =>
    match skipJsonWs l with
    | '"' :: rest =>
      match parseJStrAux rest with
      | none => none
      | some (k, rest2) =>
        match skipJsonWs rest2 with
        | ':' :: rest3 =>
          match parseJVal fuel rest3 with
          | none => none
          | some (v, rest4) =>
            match skipJsonWs rest4 with
            | ',' :: rest5 => (parseJObjRest fuel rest5).map (fun p => ((k, v) :: p.1, p.2))
            | '\x7d' :: rest5 => some ([(k, v)], rest5)
            | _ => none
        | _ => none
    | _ => none

/-- Parse the elements of a JSON array (at least one expected). -/
def parseJArrRest : Nat → List Char → Option (List JVal × List Char)
  | 0, _ => none
  | fuel + 1, l =>
    match parseJVal fuel l with
    | none => none
    | some (v, rest) =>
      match skipJsonWs rest with
      | ',' :: rest2 => (parseJArrRest fuel rest2).map (fun p => (v :: p.1, p.2))
      | ']' :: rest2 => some ([v], rest2)
      | _ => none

end

/-- `json.loads`: parse one JSON document with nothing but whitespace
after it. -/
def json_loads (s : List Char) : Option JVal :=
  match parseJVal (s.length + 1) s with
  | some (v, rest) => if skipJsonWs rest = [] then some v else none
  | none => none

/-- The raw `character_profile` input of `validate_and_normalize`: a
Python string, a dict of JSON-like values, or any other object carried by
its `str()` rendering. -/
inductive RawIn where
  | pystr (s : List Char)
  | pydict (d : PDict)
  | pyother (stringified : List Char)

/-- Metadata key `_validation_warning`. -/
def metaWarning : List Char := lc "_validation_warning"

/-- Metadata key `_schema_type`. -/
def metaSchemaType : List Char := lc "_schema_type"

/-- Metadata key `_validated`. -/
def metaValidated : List Char := lc "_validated"

/-- Models `str(TypeError(...))` raised by `json.dumps` on a
non-serializable object. -/
def dumpsError : List Char := lc "Object is not JSON serializable"

/-- `AgentSchemaManager.validate_and_normalize`.  A string input is
parsed as JSON, an unparseable string becomes a dict with the single key
`raw`, and any other non-dict value becomes a dict with the single key
`content` holding its `str()` rendering.  The profile is then
type-detected, field-aliased and schema-validated; on validation failure
the original (pre-aliasing) parsed dict is returned annotated with a
warning and `raw`/`false` metadata; if `json.dumps` raises during type
detection the outer handler returns the minimal stub profile. -/
def validate_and_normalize (agent_name : List Char) (raw_profile : RawIn) : PDict :=
  let profile : PDict :=
    match raw_profile with
    | .pystr s =>
      match json_loads s with
      | some (JVal.obj es) => es
      | some v => [(lc "content", JVal.str (pyStr v))]
      | none => [(lc "raw", JVal.str s)]
    | .pydict d => d
    | .pyother r => [(lc "content", JVal.str r)]
  if serializableEntries profile then
    let agent_type := detect_agent_type profile
    let normalized_profile := normalize_field_names profile
    match validateSchema agent_type normalized_profile with
    | .ok (result, custom) =>
      let result := custom.foldl (fun acc e => dictSet acc e.1 e.2) result
      dictSet (dictSet result metaSchemaType (JVal.str (typeName agent_type)))
        metaValidated (JVal.bool true)
    | .error msg =>
      dictSet (dictSet (dictSet profile metaWarning (JVal.str msg))
        metaSchemaType (JVal.str (lc "raw"))) metaValidated (JVal.bool false)
  else
    [(lc "name", JVal.str agent_name),
     (lc "personality", JVal.str (lc "配置解析失败")),
     (lc "_error", JVal.str dumpsError),
     (lc "_validated", JVal.bool false)]

/-- Whether required-field validation (`name`, `personality`) fails on a
dict — a failure no schema variant can avoid. -/
def requiredInvalid (d : PDict) : Bool :=
  (match validateField .reqName (d.lookup (lc "name")) with
   | .error _ => true
   | .ok _ => false) ||
  (match validateField .reqStr (d.lookup (lc "personality")) with
   | .error _ => true
   | .ok _ => false)

/-- A dict free of the three metadata keys. -/
def metaFree (d : PDict) : Prop :=
  metaWarning ∉ pkeys d ∧ metaSchemaType ∉ pkeys d ∧ metaValidated ∉ pkeys d

instance (d : PDict) : Decidable (metaFree d) := by
  unfold metaFree
  infer_instance

/-- Remove the metadata annotations, leaving the canonical fields. -/
def stripMeta (d : PDict) : PDict :=
  d.filter (fun e => e.1 ≠ metaWarning && e.1 ≠ metaSchemaType && e.1 ≠ metaValidated)

end AgentSchemaManager


/-! ## Spec-side definitions

Definitions transcribed from the specification's wording, used to state
refinement-style claims against the embedded source functions. -/

/-- The relationship stages as the spec names them, in their linear
order. -/
inductive SpecStage where
  | stranger
  | familiar
  | friendly
  | intimate
deriving DecidableEq, Repr

/-- The stored (Chinese) name of each spec stage. -/
def specStageName : SpecStage → List Char
  | .stranger => lc "陌生期"
  | .familiar => lc "熟悉期"
  | .friendly => lc "友好期"
  | .intimate => lc "亲密期"

/-- The stage function exactly as the spec words it: fixed thresholds
(<5, <15, <30), then the override promoting a computed Friendly stage to
Intimate when more than 8 key memories are stored. -/
def spec_stage (count mem : Nat) : SpecStage :=
  let base :=
    if count < 5 then SpecStage.stranger
    else if count < 15 then SpecStage.familiar
    else if count < 30 then SpecStage.friendly
    else SpecStage.intimate
  if base = SpecStage.friendly ∧ mem > 8 then SpecStage.intimate else base

/-! ## Helper lemmas -/

theorem nl_not_mem_collapseAux (l : List Char) : ∀ b : Bool, '\n' ∉ collapseAux b l := by
  induction l with
  | nil => intro b h; simp [collapseAux] at h
  | cons c rest ih =>
    intro b h
    by_cases hs : isPySpace c
    · cases b with
      | true =>
        rw [show collapseAux true (c :: rest) = collapseAux true rest from by
          simp [collapseAux, hs]] at h
        exact ih true h
      | false =>
        rw [show collapseAux false (c :: rest) = ' ' :: collapseAux true rest from by
          simp [collapseAux, hs]] at h
        rcases List.mem_cons.mp h with h1 | h1
        · exact absurd h1 (by decide)
        · exact ih true h1
    · rw [show collapseAux b (c :: rest) = c :: collapseAux false rest from by
        cases b <;> simp [collapseAux, hs]] at h
      rcases List.mem_cons.mp h with h1 | h1
      · rw [← h1] at hs; exact hs (by decide)
      · exact ih false h1

theorem mem_dropWhile {α : Type} {p : α → Bool} {x : α} {l : List α}
    (h : x ∈ l.dropWhile p) : x ∈ l := by
  induction l with
  | nil => simp at h
  | cons a rest ih =>
    rw [List.dropWhile_cons] at h
    split at h
    · exact List.mem_cons_of_mem _ (ih h)
    · exact h

theorem mem_pyStripWs {c : Char} {l : List Char} (h : c ∈ pyStripWs l) : c ∈ l := by
  unfold pyStripWs at h
  rw [List.mem_reverse] at h
  have h1 := mem_dropWhile h
  rw [List.mem_reverse] at h1
  exact mem_dropWhile h1

theorem nl_not_mem_collapseWs (l : List Char) : '\n' ∉ collapseWs l := by
  intro h
  exact nl_not_mem_collapseAux l false (mem_pyStripWs h)

namespace ResponseFormatter

theorem splitSentCap_ne_nil (l : List Char) : splitSentCap l ≠ [] := by
  cases l with
  | nil => simp [splitSentCap]
  | cons c rest =>
    by_cases hs : isSentEnd c
    · simp [splitSentCap, hs]
    · simp only [splitSentCap, hs]
      cases h : splitSentCap rest <;> simp

theorem join_splitSentCap (l : List Char) : (splitSentCap l).flatten = l := by
  induction l with
  | nil => simp [splitSentCap]
  | cons c rest ih =>
    by_cases hs : isSentEnd c
    · simp [splitSentCap, hs, ih]
    · simp only [splitSentCap, hs, if_neg]
      cases h : splitSentCap rest with
      | nil => exact absurd h (splitSentCap_ne_nil rest)
      | cons hd tl =>
        rw [h] at ih
        simp at ih ⊢
        simp [ih]

theorem join_pairUp (ls : List (List Char)) : (pairUp ls).flatten = ls.flatten := by
  induction ls using pairUp.induct with
  | case1 => simp [pairUp]
  | case2 a => simp [pairUp]
  | case3 a b rest ih => simp [pairUp, ih]

theorem mem_greedyTake {x : Char} {m : Nat} (ls : List (List Char)) (acc : List Char)
    (h : x ∈ greedyTake m acc ls) : x ∈ acc ∨ x ∈ ls.flatten := by
  induction ls generalizing acc with
  | nil => simp [greedyTake] at h; exact Or.inl h
  | cons s rest ih =>
    simp only [greedyTake] at h
    split at h
    · exact Or.inl h
    · rcases ih (acc ++ s) h with h1 | h1
      · rcases List.mem_append.mp h1 with h2 | h2
        · exact Or.inl h2
        · exact Or.inr (by simp [h2])
      · exact Or.inr (by simp [h1])

end ResponseFormatter

namespace CharacterAgent

theorem splitOnNl_of_no_nl {l : List Char} (h : '\n' ∉ l) : splitOnNl l = [l] := by
  induction l with
  | nil => simp [splitOnNl]
  | cons c rest ih =>
    have hc : c ≠ '\n' := fun hc => h (by simp [hc])
    have hrest : '\n' ∉ rest := fun hr => h (by simp [hr])
    simp only [splitOnNl, if_neg (fun hh => hc hh)]
    rw [ih hrest]

theorem mem_lineFmt {x : Char} {l : List Char} (h : x ∈ lineFmt l) :
    x ∈ l ∨ x = '*' ∨ x = '"' := by
  have sub : ∀ {y : Char}, y ∈ pyStripWs ((pyStripWs l).drop 1).dropLast → y ∈ l := by
    intro y hy
    exact mem_pyStripWs (List.drop_subset 1 _ (List.dropLast_subset _ (mem_pyStripWs hy)))
  simp only [lineFmt] at h
  split at h
  · rcases List.mem_cons.mp h with h1 | h1
    · exact Or.inr (Or.inl h1)
    · rcases List.mem_append.mp h1 with h2 | h2
      · exact Or.inl (sub h2)
      · simp at h2; exact Or.inr (Or.inl h2)
  · split at h
    · rcases List.mem_cons.mp h with h1 | h1
      · exact Or.inr (Or.inr h1)
      · rcases List.mem_append.mp h1 with h2 | h2
        · exact Or.inl (mem_pyStripWs h2)
        · simp at h2; exact Or.inr (Or.inr h2)
    · exact Or.inl (mem_pyStripWs h)

theorem nl_not_mem_joinNl {ls : List (List Char)}
    (h : ∀ l ∈ ls, '\n' ∉ l) (hlen : ls.length ≤ 1) : '\n' ∉ joinNl ls := by
  match ls with
  | [] => simp [joinNl]
  | [x] => simpa [joinNl] using h x (by simp)
  | x :: y :: rest => simp at hlen

end CharacterAgent

namespace CharacterAgent

theorem nl_not_mem_truncateForResponse {r : List Char} (m : Nat) (h0 : '\n' ∉ r) :
    '\n' ∉ truncateForResponse r m := by
  have htr : '\n' ∉ ResponseFormatter.greedyTake m []
      (ResponseFormatter.pairUp (ResponseFormatter.splitSentCap r)) := by
    intro hx
    rcases ResponseFormatter.mem_greedyTake _ _ hx with h | h
    · simp at h
    · rw [ResponseFormatter.join_pairUp, ResponseFormatter.join_splitSentCap] at h
      exact h0 h
  simp only [truncateForResponse]
  split
  · intro hx
    rcases List.mem_append.mp hx with h | h
    · exact htr h
    · simp [lc] at h
  · exact htr

end CharacterAgent

/-! ## Claim theorems -/

/-- C10: for every input string and length budget,
`CharacterAgent.format_response` returns a single line: the initial
whitespace collapse replaces every newline by a space and no later step
reintroduces one, so narration and dialogue are never emitted on separate
lines by this function. -/
theorem format_response_single_line (response : List Char) (max_length : Nat) :
    '\n' ∉ CharacterAgent.format_response response max_length := by
  simp only [CharacterAgent.format_response]
  have h0 : '\n' ∉ collapseWs response := nl_not_mem_collapseWs response
  have h1 : '\n' ∉
      (if ResponseFormatter.count_chinese_characters (collapseWs response) > max_length
       then CharacterAgent.truncateForResponse (collapseWs response) max_length
       else collapseWs response) := by
    split
    · exact CharacterAgent.nl_not_mem_truncateForResponse max_length h0
    · exact h0
  rw [CharacterAgent.splitOnNl_of_no_nl h1]
  apply CharacterAgent.nl_not_mem_joinNl
  · intro l hl
    have hmem := (List.mem_filter.mp hl).1
    simp only [List.map_cons, List.map_nil, List.mem_singleton] at hmem
    subst hmem
    intro hx
    rcases CharacterAgent.mem_lineFmt hx with h | h | h
    · exact h1 h
    · exact absurd h (by decide)
    · exact absurd h (by decide)
  · exact le_trans (List.length_filter_le _ _) (by simp)

/-- C1 (code-bug evidence): the membership test guarding the counter of
the hard-cut fallback in `ResponseFormatter.truncate_text` asks whether
the three-character string 一-鿿 occurs inside a one-character string, so
it is identically false; the fallback therefore never counts ideographic
characters and never cuts.  On the three-ideograph, punctuation-free
input 你好吗 with budget 1 the greedy pass keeps nothing, the fallback is
taken, and the function returns the whole input: the result keeps
ideographic count 3 > 1 instead of being hard-cut at exactly 1. -/
theorem truncate_text_hard_cut_dead :
    (∀ c : Char, ResponseFormatter.hardCutTest c = false) ∧
    ResponseFormatter.truncate_text (lc "你好吗") 1 = lc "你好吗" ∧
    ResponseFormatter.count_chinese_characters
      (ResponseFormatter.truncate_text (lc "你好吗") 1) = 3 := by
  refine ⟨fun c => ?_, by decide, by decide⟩
  simp [ResponseFormatter.hardCutTest, containsSub, List.tails, List.isPrefixOf]

theorem stage_name_eq_spec (count mem : Nat) :
    MemoryManager.update_relationship_stage_name count mem
      = specStageName (spec_stage count mem) := by
  unfold MemoryManager.update_relationship_stage_name spec_stage
  by_cases h5 : count < 5
  · have e : ¬(lc "陌生期" = lc "友好期") := by decide
    simp [h5, e, specStageName]
  · by_cases h15 : count < 15
    · have e : ¬(lc "熟悉期" = lc "友好期") := by decide
      simp [h5, h15, e, specStageName]
    · by_cases h30 : count < 30
      · by_cases hm : mem > 8
        · simp [h5, h15, h30, hm, specStageName]
        · simp [h5, h15, h30, hm, specStageName]
      · have e : ¬(lc "亲密期" = lc "友好期") := by decide
        simp [h5, h15, h30, e, specStageName]

/-- C2: the recomputed relationship stage is exactly the spec's pure
function of the persisted turn count and the stored key-memory count —
thresholds <5/<15/<30 for 陌生期/熟悉期/友好期, otherwise 亲密期, with a
computed 友好期 promoted to 亲密期 when more than 8 key memories are
stored — and takes the spec's listed values on the sample counts
0,4,5,14,15,29,30 (with no memories) and on count 20 with 9 memories. -/
theorem stage_recomputation_matches_spec :
    (∀ count mem : Nat,
        MemoryManager.update_relationship_stage_name count mem
          = specStageName (spec_stage count mem)) ∧
    (MemoryManager.update_relationship_stage_name 0 0 = lc "陌生期" ∧
     MemoryManager.update_relationship_stage_name 4 0 = lc "陌生期" ∧
     MemoryManager.update_relationship_stage_name 5 0 = lc "熟悉期" ∧
     MemoryManager.update_relationship_stage_name 14 0 = lc "熟悉期" ∧
     MemoryManager.update_relationship_stage_name 15 0 = lc "友好期" ∧
     MemoryManager.update_relationship_stage_name 29 0 = lc "友好期" ∧
     MemoryManager.update_relationship_stage_name 30 0 = lc "亲密期") ∧
    MemoryManager.update_relationship_stage_name 20 9 = lc "亲密期" := by
  exact ⟨stage_name_eq_spec, by decide, by decide⟩

/-- C3 counterexample: on the spec's own scenario texts — a response that
is exactly "我保证会一直保护你" (which contains the claimed substring) and
the input "你愿意帮我吗" — no keyword of the promise group
(永远/承诺/誓言/约定) occurs in the response and no keyword of the
significant-keyword list occurs in either text, so the extracted key
points are empty and no key memory is produced at all. -/
theorem promise_scenario_fails :
    (CharacterAgent.extract_info_from_response
        (lc "我保证会一直保护你") (lc "你愿意帮我吗")).key_points = [] ∧
    MemoryManager.extract_key_memories (lc "你愿意帮我吗") (lc "我保证会一直保护你")
      (CharacterAgent.extract_info_from_response
        (lc "我保证会一直保护你") (lc "你愿意帮我吗")) = [] := by
  exact ⟨by decide, by decide⟩

/-- C3 amended: with the promise keyword 承诺 actually present — response
"我承诺会一直保护你", input "你愿意帮我吗" — signal extraction yields the
important-promise tag 重要承诺 and memory extraction produces exactly one
new key-memory entry, prefixed 提到：. -/
theorem promise_scenario_amended :
    (lc "重要承诺") ∈ (CharacterAgent.extract_info_from_response
        (lc "我承诺会一直保护你") (lc "你愿意帮我吗")).key_points ∧
    MemoryManager.extract_key_memories (lc "你愿意帮我吗") (lc "我承诺会一直保护你")
      (CharacterAgent.extract_info_from_response
        (lc "我承诺会一直保护你") (lc "你愿意帮我吗"))
      = [lc "提到：你愿意帮我吗 我承诺会一直保护你..."] ∧
    (lc "提到：").isPrefixOf (lc "提到：你愿意帮我吗 我承诺会一直保护你...") = true := by
  exact ⟨by decide, by decide, by decide⟩

/-- C5 counterexample: the promise keyword 永远 occurs in the user input
but in no way in the response, and the key-point tag is not produced —
the key-point checks consult the response text only, not "either text"
as claimed. -/
theorem key_points_ignore_user_input :
    containsSub (lc "永远") (lc "我永远支持你") = true ∧
    (CharacterAgent.extract_info_from_response
        (lc "你好") (lc "我永远支持你")).key_points = [] := by
  exact ⟨by decide, by decide⟩

/-- C5 amended: each key-point tag is produced exactly when some keyword
of its fixed group occurs in the response text (the user input is not
consulted), and the three checks are independent — each tag's presence
depends only on its own group's test. -/
theorem key_points_characterization (response user_input : List Char) :
    ((lc "重要承诺") ∈ (CharacterAgent.extract_info_from_response response user_input).key_points
        ↔ CharacterAgent.promiseKeywords.any (fun kw => containsSub kw response) = true) ∧
    ((lc "秘密揭示") ∈ (CharacterAgent.extract_info_from_response response user_input).key_points
        ↔ CharacterAgent.secretKeywords.any (fun kw => containsSub kw response) = true) ∧
    ((lc "道歉或原谅") ∈ (CharacterAgent.extract_info_from_response response user_input).key_points
        ↔ CharacterAgent.apologyKeywords.any (fun kw => containsSub kw response) = true) := by
  have d12 : lc "重要承诺" ≠ lc "秘密揭示" := by decide
  have d13 : lc "重要承诺" ≠ lc "道歉或原谅" := by decide
  have d23 : lc "秘密揭示" ≠ lc "道歉或原谅" := by decide
  have d21 : lc "秘密揭示" ≠ lc "重要承诺" := by decide
  have d31 : lc "道歉或原谅" ≠ lc "重要承诺" := by decide
  have d32 : lc "道歉或原谅" ≠ lc "秘密揭示" := by decide
  by_cases h1 : CharacterAgent.promiseKeywords.any (fun kw => containsSub kw response) = true <;>
    by_cases h2 : CharacterAgent.secretKeywords.any (fun kw => containsSub kw response) = true <;>
      by_cases h3 : CharacterAgent.apologyKeywords.any (fun kw => containsSub kw response) = true <;>
        simp_all [CharacterAgent.extract_info_from_response, d12, d13, d23, d21, d31, d32]

theorem takeLast_length_le (n : Nat) (l : List (List Char)) : (takeLast n l).length ≤ n := by
  simp only [takeLast, List.length_drop]
  omega

namespace MemoryManager

theorem key_memories_le_15 (st : AgentState) (ui ar : List Char)
    (ex : CharacterAgent.ExtractedInfo) (now : List Char) (c : Nat)
    (h : st.key_memories.length ≤ 15) :
    (update_agent_state st ui ar ex now c).key_memories.length ≤ 15 := by
  dsimp only [update_agent_state]
  split
  · split
    · exact takeLast_length_le 15 _
    · next hle => exact Nat.le_of_not_lt hle
  · exact h

theorem key_memories_mono (st : AgentState) (ui ar : List Char)
    (ex : CharacterAgent.ExtractedInfo) (now : List Char) (c : Nat)
    (h : st.key_memories.length ≤ 15) :
    st.key_memories.length ≤ (update_agent_state st ui ar ex now c).key_memories.length := by
  dsimp only [update_agent_state]
  split
  · split
    · next hgt =>
      simp only [takeLast, List.length_drop]
      omega
    · simp
  · exact Nat.le_refl _

theorem conversation_topics_le_10 (st : AgentState) (ui ar : List Char)
    (ex : CharacterAgent.ExtractedInfo) (now : List Char) (c : Nat) :
    (update_agent_state st ui ar ex now c).conversation_topics.length ≤ 10 := by
  dsimp only [update_agent_state, update_conversation_topics]
  split
  · exact takeLast_length_le 10 _
  · next hle => exact Nat.le_of_not_lt hle

theorem interaction_count_increment (st : AgentState) (ui ar : List Char)
    (ex : CharacterAgent.ExtractedInfo) (now : List Char) (c : Nat) :
    (update_agent_state st ui ar ex now c).user_traits.interaction_count
      = some (st.user_traits.interaction_count.getD 0 + 1) := rfl

end MemoryManager

/-- C8: `advance` preserves the state bounds: from a state with at most
15 key memories and at most 10 conversation topics, any inputs and
signals lead to a post-state with at most 15 key memories and at most 10
topics, and the `interaction_count` user trait is incremented by one,
with a missing counter treated as 0. -/
theorem advance_preserves_bounds (st : MemoryManager.AgentState) (ui ar : List Char)
    (ex : CharacterAgent.ExtractedInfo) (now : List Char) (c : Nat)
    (hmem : st.key_memories.length ≤ 15)
    (htop : st.conversation_topics.length ≤ 10) :
    (MemoryManager.update_agent_state st ui ar ex now c).key_memories.length ≤ 15 ∧
    (MemoryManager.update_agent_state st ui ar ex now c).conversation_topics.length ≤ 10 ∧
    (MemoryManager.update_agent_state st ui ar ex now c).user_traits.interaction_count
      = some (st.user_traits.interaction_count.getD 0 + 1) :=
  ⟨MemoryManager.key_memories_le_15 st ui ar ex now c hmem,
   MemoryManager.conversation_topics_le_10 st ui ar ex now c,
   MemoryManager.interaction_count_increment st ui ar ex now c⟩

/-- A fresh state as `get_or_create_agent_state` builds it. -/
def probeState : MemoryManager.AgentState :=
  { current_stage := lc "陌生期"
    key_memories := []
    user_traits := ⟨none, none, none, none⟩
    conversation_topics := []
    last_interaction_at := []
    updated_at := [] }

/-- Witness for C8 at a concrete fresh state and empty turn. -/
theorem advance_preserves_bounds_witness :
    (MemoryManager.update_agent_state probeState [] [] ⟨[], [], []⟩ [] 1).key_memories.length ≤ 15 ∧
    (MemoryManager.update_agent_state probeState [] [] ⟨[], [], []⟩ [] 1).conversation_topics.length ≤ 10 ∧
    (MemoryManager.update_agent_state probeState [] [] ⟨[], [], []⟩ [] 1).user_traits.interaction_count
      = some (probeState.user_traits.interaction_count.getD 0 + 1) :=
  advance_preserves_bounds probeState [] [] ⟨[], [], []⟩ [] 1 (by decide) (by decide)

/-- The rank of a spec stage in the linear order. -/
def specRank : SpecStage → Nat
  | .stranger => 0
  | .familiar => 1
  | .friendly => 2
  | .intimate => 3

theorem stageRank_specStageName (s : SpecStage) :
    MemoryManager.stageRank (specStageName s) = specRank s := by
  cases s <;> decide

theorem spec_stage_monotone {c c' m m' : Nat} (hc : c ≤ c') (hm : m ≤ m') :
    specRank (spec_stage c m) ≤ specRank (spec_stage c' m') := by
  dsimp only [spec_stage]
  split_ifs <;> simp_all [specRank] <;> omega

theorem stage_name_monotone {c c' m m' : Nat} (hc : c ≤ c') (hm : m ≤ m') :
    MemoryManager.stageRank (MemoryManager.update_relationship_stage_name c m)
      ≤ MemoryManager.stageRank (MemoryManager.update_relationship_stage_name c' m') := by
  rw [stage_name_eq_spec, stage_name_eq_spec, stageRank_specStageName, stageRank_specStageName]
  exact spec_stage_monotone hc hm

namespace MemoryManager

theorem stepState_stage (st : AgentState) (s : Step) :
    (stepState st s).current_stage
      = update_relationship_stage_name s.dbMessageCount (stepState st s).key_memories.length := rfl

/-- Both monotonicity facts along a run, as one chain. -/
theorem runStates_chain (steps : List Step) : ∀ (st : AgentState),
    st.key_memories.length ≤ 15 →
    List.Chain' (fun a b => a ≤ b) (steps.map Step.dbMessageCount) →
    List.Chain'
      (fun a b => stageRank a.current_stage ≤ stageRank b.current_stage ∧
        a.key_memories.length ≤ b.key_memories.length)
      (runStates st steps) := by
  induction steps with
  | nil => intro st _ _; simp [runStates]
  | cons s rest ih =>
    intro st hmem hc
    have hmem1 : (stepState st s).key_memories.length ≤ 15 :=
      key_memories_le_15 st _ _ _ _ _ hmem
    match rest, hc with
    | [], _ => simp [runStates]
    | s2 :: rest2, hc =>
      have hc12 : s.dbMessageCount ≤ s2.dbMessageCount :=
        (List.chain'_cons.mp hc).1
      have hctail : List.Chain' (fun a b => a ≤ b) ((s2 :: rest2).map Step.dbMessageCount) :=
        (List.chain'_cons.mp hc).2
      have htail := ih (stepState st s) hmem1 hctail
      have hmono : (stepState st s).key_memories.length
          ≤ (stepState (stepState st s) s2).key_memories.length :=
        key_memories_mono _ _ _ _ _ _ hmem1
      show List.Chain' _ (stepState st s :: runStates (stepState st s) (s2 :: rest2))
      rw [show runStates (stepState st s) (s2 :: rest2)
          = stepState (stepState st s) s2 :: runStates (stepState (stepState st s) s2) rest2 from rfl]
      rw [show runStates (stepState st s) (s2 :: rest2)
          = stepState (stepState st s) s2 :: runStates (stepState (stepState st s) s2) rest2 from rfl] at htail
      refine List.chain'_cons.mpr ⟨⟨?_, hmono⟩, htail⟩
      rw [stepState_stage st s, stepState_stage (stepState st s) s2]
      exact stage_name_monotone hc12 hmono

end MemoryManager

/-- C9: along any sequence of `advance` steps, starting from a state
within the 15-memory bound, in which the authoritative persisted turn
count never decreases, the recomputed relationship stage never decreases
in the order 陌生期 < 熟悉期 < 友好期 < 亲密期, and the key-memory count
never decreases either (so a memory-based promotion to 亲密期 is never
subsequently undone). -/
theorem stage_monotone_along_advance (st : MemoryManager.AgentState)
    (steps : List MemoryManager.Step)
    (hmem : st.key_memories.length ≤ 15)
    (hc : List.Chain' (fun a b => a ≤ b) (steps.map MemoryManager.Step.dbMessageCount)) :
    List.Chain'
      (fun a b => MemoryManager.stageRank a.current_stage ≤ MemoryManager.stageRank b.current_stage)
      (MemoryManager.runStates st steps) ∧
    List.Chain' (fun a b => a.key_memories.length ≤ b.key_memories.length)
      (MemoryManager.runStates st steps) := by
  have h := MemoryManager.runStates_chain steps st hmem hc
  exact ⟨h.imp (fun _ _ hab => hab.1), h.imp (fun _ _ hab => hab.2)⟩

/-- Witness for C9: a two-step run with nondecreasing counts 20, 21. -/
theorem stage_monotone_along_advance_witness :
    List.Chain'
      (fun a b => MemoryManager.stageRank a.current_stage ≤ MemoryManager.stageRank b.current_stage)
      (MemoryManager.runStates probeState
        [⟨[], [], ⟨[], [], []⟩, [], 20⟩, ⟨[], [], ⟨[], [], []⟩, [], 21⟩]) ∧
    List.Chain' (fun a b => a.key_memories.length ≤ b.key_memories.length)
      (MemoryManager.runStates probeState
        [⟨[], [], ⟨[], [], []⟩, [], 20⟩, ⟨[], [], ⟨[], [], []⟩, [], 21⟩]) :=
  stage_monotone_along_advance probeState
    [⟨[], [], ⟨[], [], []⟩, [], 20⟩, ⟨[], [], ⟨[], [], []⟩, [], 21⟩]
    (by decide) (by simp)

namespace AgentSchemaManager

theorem lookup_append (A B : PDict) (k : List Char) :
    (A ++ B).lookup k = match A.lookup k with
      | some v => some v
      | none => B.lookup k := by
  induction A with
  | nil => simp [List.lookup]
  | cons e rest ih =>
    rcases e with ⟨k', v'⟩
    by_cases hb : (k == k') = true
    · simp [List.lookup, hb]
    · rw [Bool.not_eq_true] at hb
      simp only [List.cons_append, List.lookup, hb]
      exact ih

theorem lookup_dictSet_self (A : PDict) (k : List Char) (v : JVal) :
    (dictSet A k v).lookup k = some v := by
  induction A with
  | nil => simp [dictSet, List.lookup]
  | cons e rest ih =>
    rcases e with ⟨k', v'⟩
    by_cases h : k' = k
    · simp [dictSet, h, List.lookup]
    · have hb : (k == k') = false := beq_eq_false_iff_ne.mpr (Ne.symm h)
      simp [dictSet, h, List.lookup, hb, ih]

theorem lookup_dictSet_ne (A : PDict) {k' k : List Char} (v : JVal) (h : k' ≠ k) :
    (dictSet A k' v).lookup k = A.lookup k := by
  have hb : (k == k') = false := beq_eq_false_iff_ne.mpr (Ne.symm h)
  induction A with
  | nil => simp [dictSet, List.lookup, hb]
  | cons e rest ih =>
    rcases e with ⟨k0, v0⟩
    by_cases h0 : k0 = k'
    · subst h0
      simp [dictSet, List.lookup, hb]
    · by_cases hk : (k == k0) = true
      · simp [dictSet, h0, List.lookup, hk]
      · rw [Bool.not_eq_true] at hk
        simp [dictSet, h0, List.lookup, hk, ih]

theorem pkeys_cons (k : List Char) (v : JVal) (rest : PDict) :
    pkeys ((k, v) :: rest) = k :: pkeys rest := rfl

theorem dictSet_of_not_mem {A : PDict} {k : List Char} (v : JVal) (h : k ∉ pkeys A) :
    dictSet A k v = A ++ [(k, v)] := by
  induction A with
  | nil => simp [dictSet]
  | cons e rest ih =>
    rcases e with ⟨k', v'⟩
    rw [pkeys_cons] at h
    have hne : k' ≠ k := fun hh => h (hh ▸ List.mem_cons_self k' _)
    have hrest : k ∉ pkeys rest := fun hh => h (List.mem_cons_of_mem _ hh)
    simp [dictSet, hne, ih hrest]

theorem pkeys_append (A B : PDict) : pkeys (A ++ B) = pkeys A ++ pkeys B := by
  simp [pkeys]

theorem mem_pkeys_dictSet {A : PDict} {k k' : List Char} {v : JVal}
    (h : k' ∈ pkeys (dictSet A k v)) : k' ∈ pkeys A ∨ k' = k := by
  induction A with
  | nil => simp [dictSet, pkeys] at h; exact Or.inr h
  | cons e rest ih =>
    rcases e with ⟨k0, v0⟩
    by_cases h0 : k0 = k
    · simp [dictSet, h0, pkeys] at h
      rcases h with h | h
      · exact Or.inr h
      · exact Or.inl (by simp [pkeys, h])
    · simp [dictSet, h0, pkeys] at h
      rcases h with h | h
      · exact Or.inl (by simp [pkeys, h])
      · rcases ih (by simpa [pkeys] using h) with h1 | h1
        · exact Or.inl (by simp [pkeys] at h1 ⊢; exact Or.inr h1)
        · exact Or.inr h1

theorem serializableEntries_append (A B : PDict) :
    serializableEntries (A ++ B) = (serializableEntries A && serializableEntries B) := by
  induction A with
  | nil => simp [serializableEntries]
  | cons e rest ih =>
    rcases e with ⟨k, v⟩
    simp [serializableEntries, ih, Bool.and_assoc]

theorem lookup_values_mem {l : List (List Char × List Char)} {k v : List Char}
    (h : l.lookup k = some v) : v ∈ l.map Prod.snd := by
  induction l with
  | nil => simp [List.lookup] at h
  | cons e rest ih =>
    rcases e with ⟨k', v'⟩
    by_cases hb : (k == k') = true
    · simp [List.lookup, hb] at h
      simp [h]
    · rw [Bool.not_eq_true] at hb
      simp only [List.lookup, hb] at h
      simp [ih h]

theorem aliasTarget_eq_self_of_meta {k m : List Char}
    (hm : m ∉ field_mapping.map Prod.snd) (h : aliasTarget k = m) : k = m := by
  unfold aliasTarget at h
  cases hl : field_mapping.lookup k with
  | none => rw [hl] at h; exact h
  | some v =>
    rw [hl] at h
    exact absurd (h ▸ lookup_values_mem hl) hm

theorem mem_pkeys_alias_fold {d : PDict} {acc : PDict} {k : List Char}
    (h : k ∈ pkeys (d.foldl (fun a e => dictSet a (aliasTarget e.1) e.2) acc)) :
    k ∈ pkeys acc ∨ ∃ e ∈ d, aliasTarget e.1 = k := by
  induction d generalizing acc with
  | nil => exact Or.inl h
  | cons e rest ih =>
    simp only [List.foldl_cons] at h
    rcases ih h with h1 | h1
    · rcases mem_pkeys_dictSet h1 with h2 | h2
      · exact Or.inl h2
      · exact Or.inr ⟨e, by simp, h2.symm⟩
    · rcases h1 with ⟨e', he', ht⟩
      exact Or.inr ⟨e', by simp [he'], ht⟩

theorem mem_pkeys_normalize {d : PDict} {k : List Char}
    (h : k ∈ pkeys (normalize_field_names d)) : ∃ e ∈ d, aliasTarget e.1 = k := by
  rcases @mem_pkeys_alias_fold d [] k h with h1 | h1
  · simp [pkeys] at h1
  · exact h1

end AgentSchemaManager

namespace AgentSchemaManager

theorem lookup_some_mem_pkeys {A : PDict} {k : List Char} {v : JVal}
    (h : A.lookup k = some v) : k ∈ pkeys A := by
  induction A with
  | nil => simp [List.lookup] at h
  | cons e rest ih =>
    rcases e with ⟨k0, v0⟩
    by_cases hb : (k == k0) = true
    · rw [pkeys_cons]
      exact List.mem_cons.mpr (Or.inl (by simpa using hb))
    · rw [Bool.not_eq_true] at hb
      simp only [List.lookup, hb] at h
      exact List.mem_cons_of_mem _ (ih h)

theorem fieldErrors_ne_nil_of_requiredInvalid (t : SchemaType) (d : PDict)
    (h : requiredInvalid d = true) : fieldErrors t d ≠ [] := by
  unfold requiredInvalid at h
  unfold fieldErrors declaredFor baseFields
  rw [Bool.or_eq_true] at h
  rcases h with h | h
  · cases hval : validateField .reqName (d.lookup (lc "name")) with
    | error e => simp [List.filterMap_cons, hval]
    | ok w => rw [hval] at h; simp at h
  · cases hval : validateField .reqStr (d.lookup (lc "personality")) with
    | error e =>
      cases hval2 : validateField .reqName (d.lookup (lc "name")) with
      | error e2 => simp [List.filterMap_cons, hval2]
      | ok w => simp [List.filterMap_cons, hval, hval2]
    | ok w => rw [hval] at h; simp at h

theorem validateSchema_error_of_requiredInvalid (t : SchemaType) (d : PDict)
    (h : requiredInvalid d = true) :
    validateSchema t d = .error (renderErrors (fieldErrors t d)) := by
  unfold validateSchema
  rw [if_neg (fieldErrors_ne_nil_of_requiredInvalid t d h)]

theorem vn_dict_failure (nm : List Char) (d : PDict)
    (hser : serializableEntries d = true)
    (hreq : requiredInvalid (normalize_field_names d) = true) :
    validate_and_normalize nm (RawIn.pydict d)
      = dictSet (dictSet (dictSet d metaWarning
          (JVal.str (renderErrors
            (fieldErrors (detect_agent_type d) (normalize_field_names d)))))
          metaSchemaType (JVal.str (lc "raw"))) metaValidated (JVal.bool false) := by
  simp only [validate_and_normalize]
  rw [if_pos hser]
  rw [validateSchema_error_of_requiredInvalid _ _ hreq]

/-- The three metadata entries appended by the failure path. -/
def meta3 (a b c : JVal) : PDict :=
  [(metaWarning, a), (metaSchemaType, b), (metaValidated, c)]

theorem aliasTarget_metaWarning : aliasTarget metaWarning = metaWarning := rfl

theorem aliasTarget_metaSchemaType : aliasTarget metaSchemaType = metaSchemaType := rfl

theorem aliasTarget_metaValidated : aliasTarget metaValidated = metaValidated := rfl

theorem metaWarning_not_value : metaWarning ∉ field_mapping.map Prod.snd := by decide

theorem metaSchemaType_not_value : metaSchemaType ∉ field_mapping.map Prod.snd := by decide

theorem metaValidated_not_value : metaValidated ∉ field_mapping.map Prod.snd := by decide

theorem not_mem_nfn_of_meta {d : PDict} {m : List Char}
    (hv : m ∉ field_mapping.map Prod.snd) (hd : m ∉ pkeys d) :
    m ∉ pkeys (normalize_field_names d) := by
  intro h
  rcases mem_pkeys_normalize h with ⟨e, he, ht⟩
  have he1 : e.1 = m := aliasTarget_eq_self_of_meta hv ht
  exact hd (he1 ▸ List.mem_map_of_mem (fun e => e.1) he)

theorem metaFree_nfn {d : PDict} (hfree : metaFree d) :
    metaFree (normalize_field_names d) :=
  ⟨not_mem_nfn_of_meta metaWarning_not_value hfree.1,
   not_mem_nfn_of_meta metaSchemaType_not_value hfree.2.1,
   not_mem_nfn_of_meta metaValidated_not_value hfree.2.2⟩

theorem dictSet3_eq_append {d : PDict} (hfree : metaFree d) (a b c : JVal) :
    dictSet (dictSet (dictSet d metaWarning a) metaSchemaType b) metaValidated c
      = d ++ meta3 a b c := by
  obtain ⟨h1, h2, h3⟩ := hfree
  have h2' : metaSchemaType ∉ pkeys (d ++ [(metaWarning, a)]) := by
    rw [pkeys_append]
    intro hmem
    rcases List.mem_append.mp hmem with hm | hm
    · exact h2 hm
    · rw [pkeys_cons] at hm
      rcases List.mem_cons.mp hm with hm | hm
      · exact absurd hm (by decide)
      · simp [pkeys] at hm
  have h3' : metaValidated ∉ pkeys ((d ++ [(metaWarning, a)]) ++ [(metaSchemaType, b)]) := by
    rw [pkeys_append, pkeys_append]
    intro hmem
    rcases List.mem_append.mp hmem with hm | hm
    · rcases List.mem_append.mp hm with hm | hm
      · exact h3 hm
      · rw [pkeys_cons] at hm
        rcases List.mem_cons.mp hm with hm | hm
        · exact absurd hm (by decide)
        · simp [pkeys] at hm
    · rw [pkeys_cons] at hm
      rcases List.mem_cons.mp hm with hm | hm
      · exact absurd hm (by decide)
      · simp [pkeys] at hm
  rw [dictSet_of_not_mem a h1, dictSet_of_not_mem b h2', dictSet_of_not_mem c h3']
  simp [meta3]

theorem dictSet_append_right {A : PDict} (B : PDict) {k : List Char} (v : JVal)
    (h : k ∉ pkeys A) : dictSet (A ++ B) k v = A ++ dictSet B k v := by
  induction A with
  | nil => simp
  | cons e rest ih =>
    rcases e with ⟨k0, v0⟩
    rw [pkeys_cons] at h
    have hne : k0 ≠ k := fun hh => h (hh ▸ List.mem_cons_self k0 _)
    simp [dictSet, hne, ih (fun hh => h (List.mem_cons_of_mem _ hh))]

theorem dictSet_meta3_w (a b c a' : JVal) :
    dictSet (meta3 a b c) metaWarning a' = meta3 a' b c := rfl

theorem dictSet_meta3_st (a b c b' : JVal) :
    dictSet (meta3 a b c) metaSchemaType b' = meta3 a b' c := by
  have h : metaWarning ≠ metaSchemaType := by decide
  simp [meta3, dictSet, h]

theorem dictSet_meta3_vl (a b c c' : JVal) :
    dictSet (meta3 a b c) metaValidated c' = meta3 a b c' := by
  have h1 : metaWarning ≠ metaValidated := by decide
  have h2 : metaSchemaType ≠ metaValidated := by decide
  simp [meta3, dictSet, h1, h2]

theorem stripMeta_append (A B : PDict) :
    stripMeta (A ++ B) = stripMeta A ++ stripMeta B := by
  simp [stripMeta, List.filter_append]

theorem stripMeta_meta3 (a b c : JVal) : stripMeta (meta3 a b c) = [] := rfl

theorem serializableEntries_meta3_str (x y : List Char) (b : Bool) :
    serializableEntries (meta3 (JVal.str x) (JVal.str y) (JVal.bool b)) = true := rfl

theorem nfn_append_meta3 (d : PDict) (hfn : metaFree (normalize_field_names d)) (a b c : JVal) :
    normalize_field_names (d ++ meta3 a b c) = normalize_field_names d ++ meta3 a b c := by
  obtain ⟨h1, h2, h3⟩ := hfn
  unfold normalize_field_names
  rw [List.foldl_append]
  show (meta3 a b c).foldl _ ((normalize_field_names d)) = _
  simp only [meta3, List.foldl_cons, List.foldl_nil]
  rw [show aliasTarget (metaWarning, a).1 = metaWarning from rfl]
  rw [show aliasTarget (metaSchemaType, b).1 = metaSchemaType from rfl]
  rw [show aliasTarget (metaValidated, c).1 = metaValidated from rfl]
  have h2' : metaSchemaType ∉ pkeys (normalize_field_names d ++ [(metaWarning, a)]) := by
    rw [pkeys_append]
    intro hmem
    rcases List.mem_append.mp hmem with hm | hm
    · exact h2 hm
    · rw [pkeys_cons] at hm
      rcases List.mem_cons.mp hm with hm | hm
      · exact absurd hm (by decide)
      · simp [pkeys] at hm
  have h3' : metaValidated ∉
      pkeys ((normalize_field_names d ++ [(metaWarning, a)]) ++ [(metaSchemaType, b)]) := by
    rw [pkeys_append, pkeys_append]
    intro hmem
    rcases List.mem_append.mp hmem with hm | hm
    · rcases List.mem_append.mp hm with hm | hm
      · exact h3 hm
      · rw [pkeys_cons] at hm
        rcases List.mem_cons.mp hm with hm | hm
        · exact absurd hm (by decide)
        · simp [pkeys] at hm
    · rw [pkeys_cons] at hm
      rcases List.mem_cons.mp hm with hm | hm
      · exact absurd hm (by decide)
      · simp [pkeys] at hm
  rw [dictSet_of_not_mem a h1, dictSet_of_not_mem b h2', dictSet_of_not_mem c h3']
  simp only [List.append_assoc, List.singleton_append]
  rfl

theorem lookup_meta3_name (a b c : JVal) : (meta3 a b c).lookup (lc "name") = none := rfl

theorem lookup_meta3_personality (a b c : JVal) :
    (meta3 a b c).lookup (lc "personality") = none := rfl

theorem requiredInvalid_append_meta3 (A : PDict) (a b c : JVal) :
    requiredInvalid (A ++ meta3 a b c) = requiredInvalid A := by
  unfold requiredInvalid
  rw [lookup_append, lookup_append]
  cases hn : A.lookup (lc "name") <;> cases hp : A.lookup (lc "personality") <;>
    simp [lookup_meta3_name, lookup_meta3_personality]

end AgentSchemaManager

open AgentSchemaManager in
/-- A profile whose only fantasy-detection keyword sits in the key of a
null-valued field: the first normalization validates it as a fantasy
profile (extra fields allowed) and keeps the custom field `hobby`, but
drops the null field, so re-normalization detects `default` (extra fields
ignored) and drops `hobby`. -/
def idempotenceProbe : PDict :=
  [(lc "name", JVal.str (lc "a")), (lc "personality", JVal.str (lc "b")),
   (lc "魔法效果", JVal.null), (lc "hobby", JVal.str (lc "piano"))]

open AgentSchemaManager in
/-- C4 counterexample: normalization is not idempotent.  On
`idempotenceProbe` the first pass succeeds (validated metadata true,
schema type fantasy) and its output contains the canonical custom field
`hobby`; normalizing that output again yields a profile without `hobby` —
the two passes differ in a canonical field, not just in the metadata
tags. -/
theorem normalize_not_idempotent :
    (validate_and_normalize (lc "A") (RawIn.pydict idempotenceProbe)).lookup (lc "hobby")
      = some (JVal.str (lc "piano")) ∧
    (validate_and_normalize (lc "A") (RawIn.pydict idempotenceProbe)).lookup metaValidated
      = some (JVal.bool true) ∧
    (validate_and_normalize (lc "A") (RawIn.pydict idempotenceProbe)).lookup metaSchemaType
      = some (JVal.str (lc "fantasy")) ∧
    (validate_and_normalize (lc "A")
        (RawIn.pydict (validate_and_normalize (lc "A")
          (RawIn.pydict idempotenceProbe)))).lookup (lc "hobby") = none :=
  ⟨rfl, rfl, rfl, rfl⟩

open AgentSchemaManager in
/-- C4 amended: idempotence holds on the validation-failure path — for
any serializable map input without the metadata keys on which required
field validation (name/personality) fails after aliasing, re-normalizing
the returned annotated profile yields exactly the same canonical fields,
with only the metadata tags (schema type, validated flag, validation
warning) possibly differing — but not in general: when the first pass
validates successfully, re-detection can select a different schema
variant and drop extra fields, as `normalize_not_idempotent` shows. -/
theorem normalize_idempotent_on_failure (nm : List Char) (d : PDict)
    (hser : serializableEntries d = true)
    (hreq : requiredInvalid (normalize_field_names d) = true)
    (hfree : metaFree d) :
    stripMeta (validate_and_normalize nm
        (RawIn.pydict (validate_and_normalize nm (RawIn.pydict d))))
      = stripMeta (validate_and_normalize nm (RawIn.pydict d)) := by
  have hfn : metaFree (normalize_field_names d) := metaFree_nfn hfree
  have h1 := vn_dict_failure nm d hser hreq
  rw [h1, dictSet3_eq_append hfree]
  have hser2 : serializableEntries (d ++ meta3
      (JVal.str (renderErrors (fieldErrors (detect_agent_type d) (normalize_field_names d))))
      (JVal.str (lc "raw")) (JVal.bool false)) = true := by
    rw [serializableEntries_append, hser, serializableEntries_meta3_str]
    rfl
  have hreq2 : requiredInvalid (normalize_field_names (d ++ meta3
      (JVal.str (renderErrors (fieldErrors (detect_agent_type d) (normalize_field_names d))))
      (JVal.str (lc "raw")) (JVal.bool false))) = true := by
    rw [nfn_append_meta3 d hfn, requiredInvalid_append_meta3]
    exact hreq
  have h2 := vn_dict_failure nm _ hser2 hreq2
  rw [h2]
  rw [dictSet_append_right _ _ hfree.1, dictSet_meta3_w]
  rw [dictSet_append_right _ _ hfree.2.1, dictSet_meta3_st]
  rw [dictSet_append_right _ _ hfree.2.2, dictSet_meta3_vl]
  rw [stripMeta_append, stripMeta_append, stripMeta_meta3, stripMeta_meta3]

open AgentSchemaManager in
/-- Witness for the amended C4 theorem at a concrete failing profile. -/
theorem normalize_idempotent_on_failure_witness :
    stripMeta (validate_and_normalize (lc "A")
        (RawIn.pydict (validate_and_normalize (lc "A")
          (RawIn.pydict [(lc "hobby", JVal.str (lc "piano"))]))))
      = stripMeta (validate_and_normalize (lc "A")
          (RawIn.pydict [(lc "hobby", JVal.str (lc "piano"))])) :=
  normalize_idempotent_on_failure (lc "A") [(lc "hobby", JVal.str (lc "piano"))]
    rfl rfl (by decide)

namespace AgentSchemaManager

theorem nfn_lookup_unmapped (k : List Char) (v : JVal) (hk : field_mapping.lookup k = none) :
    ∀ d : PDict,
      (∀ e ∈ d, aliasTarget e.1 = k → e.1 = k) →
      (pkeys d).Nodup →
      d.lookup k = some v →
      (normalize_field_names d).lookup k = some v := by
  intro d
  induction d using List.reverseRecOn with
  | nil => intro _ _ hlook; simp [List.lookup] at hlook
  | append_singleton rest e ih =>
    intro hother hnodup hlook
    rcases e with ⟨k0, v0⟩
    have hstep : normalize_field_names (rest ++ [(k0, v0)])
        = dictSet (normalize_field_names rest) (aliasTarget k0) v0 := by
      unfold normalize_field_names
      rw [List.foldl_append]
      rfl
    rw [hstep]
    by_cases hk0 : k0 = k
    · subst hk0
      have htk : aliasTarget k0 = k0 := by unfold aliasTarget; rw [hk]
      rw [htk, lookup_dictSet_self]
      have hnotin : k0 ∉ pkeys rest := by
        rw [pkeys_append] at hnodup
        have := (List.nodup_append.mp hnodup).2.2
        intro hmem
        exact this hmem (by rw [pkeys_cons]; exact List.mem_cons_self _ _)
      rw [lookup_append] at hlook
      cases hr : rest.lookup k0 with
      | some w => exact absurd (lookup_some_mem_pkeys hr) hnotin
      | none =>
        rw [hr] at hlook
        have : (k0 == k0) = true := by simp
        simp only [List.lookup, this] at hlook
        exact hlook
    · have htk0 : aliasTarget k0 ≠ k := fun hh => hk0 (hother (k0, v0) (by simp) hh)
      rw [lookup_dictSet_ne _ _ htk0]
      apply ih
      · intro e he ht
        exact hother e (List.mem_append_left _ he) ht
      · rw [pkeys_append] at hnodup
        exact (List.nodup_append.mp hnodup).1
      · rw [lookup_append] at hlook
        cases hr : rest.lookup k with
        | some w => rw [hr] at hlook; exact hlook
        | none =>
          rw [hr] at hlook
          have hb : (k == k0) = false := beq_eq_false_iff_ne.mpr (fun hh => hk0 hh.symm)
          simp [List.lookup, hb] at hlook

end AgentSchemaManager

open AgentSchemaManager in
/-- C6 counterexample: on the validated-success path under the default
schema, an unknown custom field is dropped.  The profile has valid
required fields plus a custom key `hobby`; normalization succeeds
(validated metadata true) but the returned profile lacks `hobby`. -/
theorem custom_fields_dropped_on_success :
    (validate_and_normalize (lc "A") (RawIn.pydict
        [(lc "name", JVal.str (lc "a")), (lc "personality", JVal.str (lc "b")),
         (lc "hobby", JVal.str (lc "piano"))])).lookup metaValidated
      = some (JVal.bool true) ∧
    (validate_and_normalize (lc "A") (RawIn.pydict
        [(lc "name", JVal.str (lc "a")), (lc "personality", JVal.str (lc "b")),
         (lc "hobby", JVal.str (lc "piano"))])).lookup (lc "hobby") = none :=
  ⟨rfl, rfl⟩

open AgentSchemaManager in
/-- C7 counterexample: a string input that is not parseable as JSON does
not become `{content: <stringified input>}` — the code wraps it as
`{raw: <input>}` instead, and required-field validation then fails, so
the returned profile carries the key `raw` and no key `content`. -/
theorem unparseable_string_becomes_raw :
    (validate_and_normalize (lc "角色") (RawIn.pystr (lc "hello"))).lookup (lc "content")
      = none ∧
    (validate_and_normalize (lc "角色") (RawIn.pystr (lc "hello"))).lookup (lc "raw")
      = some (JVal.str (lc "hello")) :=
  ⟨rfl, rfl⟩


namespace AgentSchemaManager

theorem vn_dict_failure_general (nm : List Char) (d : PDict)
    (hser : serializableEntries d = true)
    (herr : fieldErrors (detect_agent_type d) (normalize_field_names d) ≠ []) :
    validate_and_normalize nm (RawIn.pydict d)
      = dictSet (dictSet (dictSet d metaWarning
          (JVal.str (renderErrors
            (fieldErrors (detect_agent_type d) (normalize_field_names d)))))
          metaSchemaType (JVal.str (lc "raw"))) metaValidated (JVal.bool false) := by
  simp only [validate_and_normalize]
  rw [if_pos hser]
  unfold validateSchema
  rw [if_neg herr]

theorem vn_dict_success (nm : List Char) (d : PDict)
    (hser : serializableEntries d = true)
    (hok : fieldErrors (detect_agent_type d) (normalize_field_names d) = []) :
    validate_and_normalize nm (RawIn.pydict d)
      = dictSet (dictSet
          ((customEntries (normalize_field_names d)).foldl (fun acc e => dictSet acc e.1 e.2)
            (modelDict (detect_agent_type d) (normalize_field_names d)))
          metaSchemaType (JVal.str (typeName (detect_agent_type d))))
          metaValidated (JVal.bool true) := by
  simp only [validate_and_normalize]
  rw [if_pos hser]
  unfold validateSchema
  rw [if_pos hok]

theorem vn_dict_nonserializable (nm : List Char) (d : PDict)
    (h : serializableEntries d = false) :
    validate_and_normalize nm (RawIn.pydict d)
      = [(lc "name", JVal.str nm),
         (lc "personality", JVal.str (lc "配置解析失败")),
         (lc "_error", JVal.str dumpsError),
         (lc "_validated", JVal.bool false)] := by
  simp only [validate_and_normalize]
  rw [if_neg (by simp [h])]

theorem vn_pystr_unparseable (nm s : List Char) (h : json_loads s = none) :
    validate_and_normalize nm (RawIn.pystr s)
      = validate_and_normalize nm (RawIn.pydict [(lc "raw", JVal.str s)]) := by
  simp only [validate_and_normalize, h]

theorem vn_pystr_scalar (nm s : List Char) (v : JVal)
    (h : json_loads s = some v) (hno : isObj v = false) :
    validate_and_normalize nm (RawIn.pystr s)
      = validate_and_normalize nm (RawIn.pydict [(lc "content", JVal.str (pyStr v))]) := by
  cases v with
  | obj es => simp [isObj] at hno
  | str s' => simp only [validate_and_normalize, h]
  | num n => simp only [validate_and_normalize, h]
  | bool b => simp only [validate_and_normalize, h]
  | null => simp only [validate_and_normalize, h]
  | arr xs => simp only [validate_and_normalize, h]
  | pyobj r => simp only [validate_and_normalize, h]

theorem metaFree_single {k : List Char} (v : JVal)
    (h1 : k ≠ metaWarning) (h2 : k ≠ metaSchemaType) (h3 : k ≠ metaValidated) :
    metaFree [(k, v)] := by
  refine ⟨fun hm => ?_, fun hm => ?_, fun hm => ?_⟩ <;>
    rw [pkeys_cons] at hm
  · rcases List.mem_cons.mp hm with hm | hm
    · exact h1 hm.symm
    · simp [pkeys] at hm
  · rcases List.mem_cons.mp hm with hm | hm
    · exact h2 hm.symm
    · simp [pkeys] at hm
  · rcases List.mem_cons.mp hm with hm | hm
    · exact h3 hm.symm
    · simp [pkeys] at hm

end AgentSchemaManager

namespace AgentSchemaManager

theorem declaredOut_key {d : PDict} {e : List Char × FieldKind} {b : List Char × JVal}
    (h : declaredOut d e = some b) : b.1 = e.1 := by
  unfold declaredOut at h
  cases hval : validateField e.2 (d.lookup e.1) with
  | ok w =>
    cases w with
    | some v => rw [hval] at h; cases h; rfl
    | none => rw [hval] at h; cases h
  | error er => rw [hval] at h; cases h

theorem mem_pkeys_filterMap_declaredOut {d : PDict} {k : List Char} :
    ∀ {l : List (List Char × FieldKind)},
      k ∈ pkeys (l.filterMap (declaredOut d)) → k ∈ l.map (fun e => e.1) := by
  intro l h
  induction l with
  | nil => simp [pkeys] at h
  | cons e rest ih =>
    rw [List.filterMap_cons] at h
    cases hval : declaredOut d e with
    | some b =>
      simp only [hval] at h
      rcases b with ⟨bk, bv⟩
      rw [pkeys_cons] at h
      rcases List.mem_cons.mp h with h | h
      · have hb := declaredOut_key hval
        simp only [] at hb
        exact List.mem_cons.mpr (Or.inl (h.trans hb))
      · exact List.mem_cons_of_mem _ (ih h)
    | none =>
      simp only [hval] at h
      exact List.mem_cons_of_mem _ (ih h)

theorem lookup_foldl_dictSet_not_mem {k : List Char} :
    ∀ (m : PDict) (acc : PDict), k ∉ pkeys m →
      (m.foldl (fun acc e => dictSet acc e.1 e.2) acc).lookup k = acc.lookup k := by
  intro m
  induction m with
  | nil => intro acc _; rfl
  | cons e rest ih =>
    intro acc hk
    rcases e with ⟨k0, v0⟩
    rw [pkeys_cons] at hk
    have h1 : k0 ≠ k := fun hh => hk (hh ▸ List.mem_cons_self _ _)
    have h2 : k ∉ pkeys rest := fun hh => hk (List.mem_cons_of_mem _ hh)
    rw [List.foldl_cons, ih _ h2]
    exact lookup_dictSet_ne _ _ h1

theorem lookup_filter_keep {k : List Char} {v : JVal} {p : List Char × JVal → Bool} :
    ∀ {A : PDict}, A.lookup k = some v → p (k, v) = true →
      (A.filter p).lookup k = some v := by
  intro A h hp
  induction A with
  | nil => simp [List.lookup] at h
  | cons e rest ih =>
    rcases e with ⟨k0, v0⟩
    by_cases hb : (k == k0) = true
    · have hk0 : k0 = k := (by simpa using hb : k = k0).symm
      subst hk0
      simp only [List.lookup, hb] at h
      have hv : v0 = v := Option.some.inj h
      subst hv
      rw [List.filter_cons, if_pos hp]
      simp [List.lookup, hb]
    · rw [Bool.not_eq_true] at hb
      simp only [List.lookup, hb] at h
      rw [List.filter_cons]
      split
      · simp only [List.lookup, hb]
        exact ih h
      · exact ih h

theorem lookup_modelDict_extras {t : SchemaType} {d : PDict} {k : List Char} {v : JVal}
    (ht : t ≠ SchemaType.dflt)
    (hdecl : k ∉ (declaredFor t).map (fun e => e.1))
    (hd : d.lookup k = some v)
    (hnull : isNull v = false) :
    (modelDict t d).lookup k = some v := by
  unfold modelDict
  have hdl : ((declaredFor t).filterMap (declaredOut d)).lookup k = none := by
    cases hdl2 : ((declaredFor t).filterMap (declaredOut d)).lookup k with
    | none => rfl
    | some w =>
      exact absurd (mem_pkeys_filterMap_declaredOut (lookup_some_mem_pkeys hdl2)) hdecl
  rw [lookup_append, hdl, if_neg ht]
  have hp1 : (fun (e : List Char × JVal) =>
      !(((declaredFor t).map (fun e => e.1)).contains e.1)) (k, v) = true := by
    simp [hdecl]
  have hp2 : (fun (e : List Char × JVal) => !(isNull e.2)) (k, v) = true := by
    simp [hnull]
  exact lookup_filter_keep (lookup_filter_keep hd hp1) hp2

theorem vn_failure_preserves_fields (nm : List Char) (d : PDict) (k : List Char) (v : JVal)
    (hser : serializableEntries d = true)
    (herr : fieldErrors (detect_agent_type d) (normalize_field_names d) ≠ [])
    (h1 : k ≠ metaWarning) (h2 : k ≠ metaSchemaType) (h3 : k ≠ metaValidated)
    (hlook : d.lookup k = some v) :
    (validate_and_normalize nm (RawIn.pydict d)).lookup k = some v := by
  rw [vn_dict_failure_general nm d hser herr]
  rw [lookup_dictSet_ne _ _ (Ne.symm h3), lookup_dictSet_ne _ _ (Ne.symm h2),
      lookup_dictSet_ne _ _ (Ne.symm h1)]
  exact hlook

theorem vn_variant_success_preserves (nm : List Char) (d : PDict) (k : List Char) (v : JVal)
    (hser : serializableEntries d = true)
    (ht : detect_agent_type d ≠ SchemaType.dflt)
    (hok : fieldErrors (detect_agent_type d) (normalize_field_names d) = [])
    (hk : field_mapping.lookup k = none)
    (hother : ∀ e ∈ d, aliasTarget e.1 = k → e.1 = k)
    (hnodup : (pkeys d).Nodup)
    (hlook : d.lookup k = some v)
    (hdecl : k ∉ (declaredFor (detect_agent_type d)).map (fun e => e.1))
    (hnull : isNull v = false)
    (hcustom : k ∉ pkeys (customEntries (normalize_field_names d)))
    (hm1 : k ≠ metaSchemaType) (hm2 : k ≠ metaValidated) :
    (validate_and_normalize nm (RawIn.pydict d)).lookup k = some v := by
  rw [vn_dict_success nm d hser hok]
  rw [lookup_dictSet_ne _ _ (Ne.symm hm2), lookup_dictSet_ne _ _ (Ne.symm hm1)]
  rw [lookup_foldl_dictSet_not_mem _ _ hcustom]
  exact lookup_modelDict_extras ht hdecl
    (nfn_lookup_unmapped k v hk d hother hnodup hlook) hnull

end AgentSchemaManager

open AgentSchemaManager in
/-- C6 amended: keys not in the alias table pass through the aliasing
step unchanged (when no other input key aliases onto them and the dict's
keys are duplicate-free); on the validation-failure path every
non-metadata field of the parsed input is present with its value in the
returned profile; and on the validated-success path, for the
keyword-detected schema variants (whose pydantic models allow extra
fields), every unknown non-null top-level field — unmapped by the alias
table, not a declared schema field, and not overridden by the
custom_fields map — is present with its value.  Under the default schema
unknown top-level fields are dropped on success, as
`custom_fields_dropped_on_success` shows, and null-valued extras are
dropped by `dict(exclude_none=True)` even under the variant schemas. -/
theorem unmapped_keys_pass_through :
    (∀ (d : PDict) (k : List Char) (v : JVal),
        field_mapping.lookup k = none →
        (∀ e ∈ d, aliasTarget e.1 = k → e.1 = k) →
        (pkeys d).Nodup →
        d.lookup k = some v →
        (normalize_field_names d).lookup k = some v) ∧
    (∀ (nm : List Char) (d : PDict) (k : List Char) (v : JVal),
        serializableEntries d = true →
        fieldErrors (detect_agent_type d) (normalize_field_names d) ≠ [] →
        k ≠ metaWarning → k ≠ metaSchemaType → k ≠ metaValidated →
        d.lookup k = some v →
        (validate_and_normalize nm (RawIn.pydict d)).lookup k = some v) ∧
    (∀ (nm : List Char) (d : PDict) (k : List Char) (v : JVal),
        serializableEntries d = true →
        detect_agent_type d ≠ SchemaType.dflt →
        fieldErrors (detect_agent_type d) (normalize_field_names d) = [] →
        field_mapping.lookup k = none →
        (∀ e ∈ d, aliasTarget e.1 = k → e.1 = k) →
        (pkeys d).Nodup →
        d.lookup k = some v →
        k ∉ (declaredFor (detect_agent_type d)).map (fun e => e.1) →
        isNull v = false →
        k ∉ pkeys (customEntries (normalize_field_names d)) →
        k ≠ metaSchemaType → k ≠ metaValidated →
        (validate_and_normalize nm (RawIn.pydict d)).lookup k = some v) :=
  ⟨fun d k v hk hother hnodup hlook => nfn_lookup_unmapped k v hk d hother hnodup hlook,
   vn_failure_preserves_fields,
   vn_variant_success_preserves⟩

open AgentSchemaManager in
/-- Witness for the amended C6 theorem: a concrete unmapped custom key on
each of the three paths — through aliasing, through the failure path, and
through the fantasy-variant success path. -/
theorem unmapped_keys_pass_through_witness :
    (normalize_field_names [(lc "hobby", JVal.str (lc "piano"))]).lookup (lc "hobby")
      = some (JVal.str (lc "piano")) ∧
    (validate_and_normalize (lc "A")
        (RawIn.pydict [(lc "hobby", JVal.str (lc "piano"))])).lookup (lc "hobby")
      = some (JVal.str (lc "piano")) ∧
    (validate_and_normalize (lc "A") (RawIn.pydict
        [(lc "name", JVal.str (lc "a")), (lc "personality", JVal.str (lc "b")),
         (lc "魔剑师", JVal.str (lc "x")), (lc "hobby", JVal.str (lc "piano"))])).lookup
        (lc "hobby") = some (JVal.str (lc "piano")) :=
  ⟨unmapped_keys_pass_through.1 [(lc "hobby", JVal.str (lc "piano"))] (lc "hobby")
      (JVal.str (lc "piano")) rfl (by decide) (by decide) rfl,
   unmapped_keys_pass_through.2.1 (lc "A") [(lc "hobby", JVal.str (lc "piano"))] (lc "hobby")
      (JVal.str (lc "piano")) rfl (by decide) (by decide) (by decide) (by decide) rfl,
   unmapped_keys_pass_through.2.2 (lc "A")
      [(lc "name", JVal.str (lc "a")), (lc "personality", JVal.str (lc "b")),
       (lc "魔剑师", JVal.str (lc "x")), (lc "hobby", JVal.str (lc "piano"))]
      (lc "hobby") (JVal.str (lc "piano")) rfl (by decide) (by decide) rfl (by decide)
      (by decide) rfl (by decide) rfl (by decide) (by decide) (by decide)⟩

open AgentSchemaManager in
/-- C7 amended: normalize never raises and always returns a usable
profile, with these branch contracts, each universal: every string input
that does not parse as JSON becomes `{raw: <input>}` and comes back as
that map annotated with a warning, schema type `raw` and validated false;
every string input parsing to a non-map JSON value is treated as the map
`{content: <stringified value>}`, as is every non-map non-string input;
on any validation failure of a serializable map input the parsed original
map — before aliasing — is returned annotated in place; and whenever
`json.dumps` raises on a non-serializable value during type detection,
the minimal stub profile is returned. -/
theorem normalize_total_fallbacks :
    (∀ (nm s : List Char), json_loads s = none →
        validate_and_normalize nm (RawIn.pystr s)
          = [(lc "raw", JVal.str s)] ++
            meta3 (JVal.str (renderErrors (fieldErrors
                (detect_agent_type [(lc "raw", JVal.str s)])
                (normalize_field_names [(lc "raw", JVal.str s)]))))
              (JVal.str (lc "raw")) (JVal.bool false)) ∧
    (∀ (nm s : List Char) (v : JVal), json_loads s = some v → isObj v = false →
        validate_and_normalize nm (RawIn.pystr s)
          = validate_and_normalize nm (RawIn.pydict [(lc "content", JVal.str (pyStr v))])) ∧
    (∀ (nm r : List Char),
        validate_and_normalize nm (RawIn.pyother r)
          = validate_and_normalize nm (RawIn.pydict [(lc "content", JVal.str r)])) ∧
    (∀ (nm : List Char) (d : PDict),
        serializableEntries d = true →
        fieldErrors (detect_agent_type d) (normalize_field_names d) ≠ [] →
        validate_and_normalize nm (RawIn.pydict d)
          = dictSet (dictSet (dictSet d metaWarning
              (JVal.str (renderErrors
                (fieldErrors (detect_agent_type d) (normalize_field_names d)))))
              metaSchemaType (JVal.str (lc "raw"))) metaValidated (JVal.bool false)) ∧
    (∀ (nm : List Char) (d : PDict),
        serializableEntries d = false →
        validate_and_normalize nm (RawIn.pydict d)
          = [(lc "name", JVal.str nm),
             (lc "personality", JVal.str (lc "配置解析失败")),
             (lc "_error", JVal.str dumpsError),
             (lc "_validated", JVal.bool false)]) := by
  refine ⟨?_, vn_pystr_scalar, fun nm r => rfl, vn_dict_failure_general, vn_dict_nonserializable⟩
  intro nm s h
  rw [vn_pystr_unparseable nm s h,
    vn_dict_failure nm [(lc "raw", JVal.str s)] rfl rfl,
    dictSet3_eq_append (metaFree_single (JVal.str s) (by decide) (by decide) (by decide))]

open AgentSchemaManager in
/-- Witness for the amended C7 theorem: one concrete input per branch. -/
theorem normalize_total_fallbacks_witness :
    validate_and_normalize (lc "角色") (RawIn.pystr (lc "hello"))
      = [(lc "raw", JVal.str (lc "hello"))] ++
        meta3 (JVal.str (renderErrors (fieldErrors
            (detect_agent_type [(lc "raw", JVal.str (lc "hello"))])
            (normalize_field_names [(lc "raw", JVal.str (lc "hello"))]))))
          (JVal.str (lc "raw")) (JVal.bool false) ∧
    validate_and_normalize (lc "角色") (RawIn.pystr (lc "42"))
      = validate_and_normalize (lc "角色")
          (RawIn.pydict [(lc "content", JVal.str (pyStr (JVal.num 42)))]) ∧
    validate_and_normalize (lc "角色") (RawIn.pydict [(lc "姓名", JVal.str (lc "x"))])
      = dictSet (dictSet (dictSet [(lc "姓名", JVal.str (lc "x"))] metaWarning
          (JVal.str (renderErrors (fieldErrors
            (detect_agent_type [(lc "姓名", JVal.str (lc "x"))])
            (normalize_field_names [(lc "姓名", JVal.str (lc "x"))])))))
          metaSchemaType (JVal.str (lc "raw"))) metaValidated (JVal.bool false) ∧
    validate_and_normalize (lc "角色") (RawIn.pydict [(lc "data", JVal.pyobj (lc "set()"))])
      = [(lc "name", JVal.str (lc "角色")),
         (lc "personality", JVal.str (lc "配置解析失败")),
         (lc "_error", JVal.str dumpsError),
         (lc "_validated", JVal.bool false)] :=
  ⟨normalize_total_fallbacks.1 (lc "角色") (lc "hello") rfl,
   normalize_total_fallbacks.2.1 (lc "角色") (lc "42") (JVal.num 42) rfl rfl,
   normalize_total_fallbacks.2.2.2.1 (lc "角色") [(lc "姓名", JVal.str (lc "x"))]
     rfl (by decide),
   normalize_total_fallbacks.2.2.2.2 (lc "角色") [(lc "data", JVal.pyobj (lc "set()"))] rfl⟩
